import Mathlib

set_option maxRecDepth 8192

/-!
Shallow embedding of the query-safety and preview pipeline of the
internal-org SQL assistant repository: the statement classifier
(`FORBIDDEN_RE`), the table-reference extractor, the role/table access
check (`checkRBACOnSql`), the PII masker (`maskValue` / `maskRow`), the
in-memory preview store with its TTL sweep, and the two request handlers
(the chat route's `db` tool and `POST /api/execute-preview`).

Regex-based functions of the source are embedded as executable scanners
that follow the JavaScript regex semantics of the concrete patterns
(leftmost match, ordered greedy backtracking, `\b` word boundaries,
ASCII scope).
-/

namespace SqlAgent

/-- JS `\w` word character: `[A-Za-z0-9_]`. -/
def isWordChar (c : Char) : Bool := c.isAlphanum || c == '_'

/-- JS `\s` whitespace (ASCII range). -/
def isJsSpace (c : Char) : Bool :=
  c == ' ' || c == '\t' || c == '\n' || c == '\r' || c == '\x0b' || c == '\x0c'

/-- Identifier characters in the extractor regexes: `[a-zA-Z0-9_$.]`. -/
def isIdentChar (c : Char) : Bool := c.isAlphanum || c == '_' || c == '$' || c == '.'

/-- Character at index `i`, if within bounds. -/
def getC (cs : List Char) (i : Nat) : Option Char := cs[i]?

/-- Length of the maximal run of characters satisfying `p` at the head. -/
def runLenAux (p : Char → Bool) : List Char → Nat
  | [] => 0
  | c :: t => if p c then runLenAux p t + 1 else 0

/-- Length of the maximal run of characters satisfying `p` starting at index `i`. -/
def runLen (p : Char → Bool) (cs : List Char) (i : Nat) : Nat := runLenAux p (cs.drop i)

/-- Case-insensitive character comparison (ASCII fold, as JS `/i`). -/
def eqCI (a b : Char) : Bool := a.toLower == b.toLower

/-- Does the word `ks` occur at index `i` of `cs`, compared case-insensitively? -/
def matchesStrCI (cs : List Char) (i : Nat) : List Char → Bool
  | [] => true
  | k :: ks =>
    match getC cs i with
    | some c => eqCI c k && matchesStrCI cs (i + 1) ks
    | none => false

/-- `\b` at a position whose next character is a word character: the previous
character (if any) must not be a word character. -/
def boundaryBefore (cs : List Char) (i : Nat) : Bool :=
  match i with
  | 0 => true
  | j + 1 =>
    match getC cs j with
    | some c => !isWordChar c
    | none => true

/-- `\b` at position `i` right after a run of word characters: the character at
`i` (if any) must not be a word character. -/
def boundaryAfter (cs : List Char) (i : Nat) : Bool :=
  match getC cs i with
  | some c => !isWordChar c
  | none => true

/-- The keyword set of
`FORBIDDEN_RE = /\b(INSERT|UPDATE|DELETE|DROP|TRUNCATE|ALTER|REPLACE|MERGE)\b/i`. -/
def FORBIDDEN_KEYWORDS : List String :=
  ["INSERT", "UPDATE", "DELETE", "DROP", "TRUNCATE", "ALTER", "REPLACE", "MERGE"]

/-- One keyword occurring at index `i` as a whole word (a `\b` on each side),
case-insensitively. -/
def wordOccursAt (cs : List Char) (i : Nat) (kw : String) : Bool :=
  boundaryBefore cs i && matchesStrCI cs i kw.data && boundaryAfter cs (i + kw.length)

/-- `FORBIDDEN_RE.test(sql)`: some forbidden keyword occurs somewhere in the
string as a whole word. -/
def FORBIDDEN_RE_test (sql : String) : Bool :=
  (List.range sql.data.length).any fun i =>
    FORBIDDEN_KEYWORDS.any fun kw => wordOccursAt sql.data i kw

/-- The claim's reading of the classifier, written from the specification's
words: the string contains the keyword as a whole word at position `i`, in any
letter case (the slice equals the keyword after lowercasing), with no word
character adjacent on either side. -/
def SpecWholeWordAt (cs : List Char) (i : Nat) (kw : String) : Prop :=
  i + kw.length ≤ cs.length ∧
  ((cs.drop i).take kw.length).map Char.toLower = kw.data.map Char.toLower ∧
  boundaryBefore cs i = true ∧ boundaryAfter cs (i + kw.length) = true

lemma matchesStrCI_iff (ks : List Char) (cs : List Char) (i : Nat) (hi : i ≤ cs.length) :
    matchesStrCI cs i ks = true ↔
      i + ks.length ≤ cs.length ∧
        ((cs.drop i).take ks.length).map Char.toLower = ks.map Char.toLower := by
  induction ks generalizing i with
  | nil =>
    simp [matchesStrCI, hi]
  | cons k ks ih =>
    rcases Nat.lt_or_ge i cs.length with hlt | hge
    · have hdrop : cs.drop i = cs[i] :: cs.drop (i + 1) := List.drop_eq_getElem_cons hlt
      have hget : getC cs i = some cs[i] := by
        simp [getC, List.getElem?_eq_getElem hlt]
      have ih' := ih (i + 1) hlt
      simp only [matchesStrCI, hget, Bool.and_eq_true, ih', hdrop, List.length_cons,
        List.take_succ_cons, List.map_cons, List.cons.injEq, eqCI, beq_iff_eq]
      constructor
      · rintro ⟨h1, h2, h3⟩
        exact ⟨by omega, h1, h3⟩
      · rintro ⟨h1, h2, h3⟩
        exact ⟨h2, by omega, h3⟩
    · have hi' : i = cs.length := le_antisymm hi hge
      have hget : getC cs i = none := by
        simp [getC, List.getElem?_eq_none_iff, hi']
      simp only [matchesStrCI, hget, List.length_cons]
      constructor
      · intro h; exact Bool.noConfusion h
      · rintro ⟨h1, _⟩; omega

lemma forbidden_keywords_pos : ∀ kw ∈ FORBIDDEN_KEYWORDS, 0 < kw.length := by
  decide

/-- **C5.** The statement classifier returns `true` iff the SQL string contains
one of the eight keywords `INSERT, UPDATE, DELETE, DROP, TRUNCATE, ALTER,
REPLACE, MERGE` as a whole word, in any letter case, at any position; for every
string containing none of them as a whole word it returns `false`. -/
theorem forbidden_classifier_iff_keyword (sql : String) :
    FORBIDDEN_RE_test sql = true ↔
      ∃ i kw, kw ∈ FORBIDDEN_KEYWORDS ∧ SpecWholeWordAt sql.data i kw := by
  constructor
  · intro h
    simp only [FORBIDDEN_RE_test, List.any_eq_true, List.mem_range] at h
    obtain ⟨i, hi, kw, hkw, hocc⟩ := h
    refine ⟨i, kw, hkw, ?_⟩
    simp only [wordOccursAt, Bool.and_eq_true] at hocc
    obtain ⟨⟨hb, hm⟩, ha⟩ := hocc
    have h2 := (matchesStrCI_iff kw.data sql.data i (Nat.le_of_lt hi)).mp hm
    exact ⟨h2.1, h2.2, hb, ha⟩
  · rintro ⟨i, kw, hkw, hlen, hmap, hb, ha⟩
    have hpos : 0 < kw.length := forbidden_keywords_pos kw hkw
    have hilt : i < sql.data.length := by
      have hconv : kw.length = kw.data.length := rfl
      omega
    simp only [FORBIDDEN_RE_test, List.any_eq_true, List.mem_range]
    refine ⟨i, hilt, kw, hkw, ?_⟩
    simp only [wordOccursAt, Bool.and_eq_true]
    refine ⟨⟨hb, ?_⟩, ha⟩
    exact (matchesStrCI_iff kw.data sql.data i (Nat.le_of_lt hilt)).mpr ⟨hlen, hmap⟩

/-! ### Table-reference extractor

`extractTableNames` scans the newline-normalized SQL with the regexes
`/\bfrom\s+([`\x22]?)([a-zA-Z0-9_$.]+)\1/gi` and
`/\bjoin\s+([`\x22]?)([a-zA-Z0-9_$.]+)\1/gi`; the chat route's version also
scans `/\b([a-zA-Z0-9_$.]+)\s+as\s+[a-zA-Z0-9_]+\b/gi`. For these concrete
patterns the JS engine's greedy backtracking reduces to maximal runs: after
`\s+` the next character decides the delimiter alternative, and a quoted
identifier must be closed by the same delimiter. -/

/-- Match `\b<kw>\s+([`\x22]?)([a-zA-Z0-9_$.]+)\1` at index `i`; returns the
second capture (the identifier) and the match length. -/
def tryKeywordIdentAt (kw : List Char) (cs : List Char) (i : Nat) :
    Option (String × Nat) :=
  if boundaryBefore cs i && matchesStrCI cs i kw then
    let kl := kw.length
    let w := runLen isJsSpace cs (i + kl)
    if w = 0 then none
    else
      let j := i + kl + w
      match getC cs j with
      | some c =>
        if c == '`' || c == '"' then
          let k := runLen isIdentChar cs (j + 1)
          if k = 0 then none
          else if getC cs (j + 1 + k) == some c then
            some (⟨(cs.drop (j + 1)).take k⟩, j + 1 + k + 1 - i)
          else none
        else
          let k := runLen isIdentChar cs j
          if k = 0 then none else some (⟨(cs.drop j).take k⟩, j + k - i)
      | none => none
  else none

/-- `\b` as a free-standing assertion: the word-character status differs
between the previous character and the current one (out of range counts as
non-word). -/
def atWordBoundary (cs : List Char) (i : Nat) : Bool :=
  let prevW :=
    match i with
    | 0 => false
    | j + 1 =>
      match getC cs j with
      | some c => isWordChar c
      | none => false
  let curW :=
    match getC cs i with
    | some c => isWordChar c
    | none => false
  prevW != curW

/-- Match `\b([a-zA-Z0-9_$.]+)\s+as\s+[a-zA-Z0-9_]+\b` at index `i`; returns
the first capture and the match length. -/
def tryAsAt (cs : List Char) (i : Nat) : Option (String × Nat) :=
  if atWordBoundary cs i then
    let k1 := runLen isIdentChar cs i
    if k1 = 0 then none
    else
      let w1 := runLen isJsSpace cs (i + k1)
      if w1 = 0 then none
      else
        let p := i + k1 + w1
        if matchesStrCI cs p ['a', 's'] then
          let w2 := runLen isJsSpace cs (p + 2)
          if w2 = 0 then none
          else
            let k2 := runLen isWordChar cs (p + 2 + w2)
            if k2 = 0 then none
            else some (⟨(cs.drop i).take k1⟩, k1 + w1 + 2 + w2 + k2)
        else none
  else none

/-- `matchAll` capture collection: scan every index left to right, skipping
over the span of each match found (non-overlapping matches). -/
def scanMatches (tryAt : List Char → Nat → Option (String × Nat))
    (cs : List Char) : List String :=
  ((List.range cs.length).foldl
    (fun st i =>
      if i < st.1 then st
      else
        match tryAt cs i with
        | some (cap, len) => (i + max len 1, st.2 ++ [cap])
        | none => st)
    ((0 : Nat), ([] : List String))).2

/-- `sql.replace(/\n/g, ' ')`. -/
def normalizeNewlines (s : String) : String :=
  ⟨s.data.map fun c => if c = '\n' then ' ' else c⟩

/-- `.toLowerCase()` (ASCII scope). -/
def lowerString (s : String) : String := ⟨s.data.map Char.toLower⟩

/-- `.startsWith(p)`. -/
def strStartsWith (s p : String) : Bool := p.data.isPrefixOf s.data

/-- `m.split('.').slice(-1)[0]`: the last dot-separated segment (empty when
the string ends in a dot, the whole string when it has no dot). -/
def lastDotSegment (s : String) : String :=
  ⟨s.data.foldl (fun acc c => if c = '.' then [] else acc ++ [c]) []⟩

/-- `.replace(/[`\x22]/g, '')`. -/
def stripQuoteChars (s : String) : String :=
  ⟨s.data.filter fun c => !(c == '`' || c == '"')⟩

/-- JS `Set.add` on a list kept in insertion order. -/
def insertUniq (l : List String) (x : String) : List String :=
  if x ∈ l then l else l ++ [x]

/-- The per-match processing `m.split('.').slice(-1)[0].replace(/[`\x22]/g, '')`. -/
def canonName (s : String) : String := stripQuoteChars (lastDotSegment s)

/-- The raw second captures of the `from`- and `join`-scans, in scan order. -/
def fromJoinCaptures (sql : String) : List String :=
  let norm := (normalizeNewlines sql).data
  scanMatches (tryKeywordIdentAt ['f', 'r', 'o', 'm']) norm ++
    scanMatches (tryKeywordIdentAt ['j', 'o', 'i', 'n']) norm

namespace ChatRoute

/-- `extractTableNames` of `src/app/api/chat/route.ts`: `from`-matches,
`join`-matches, then the `AS`-alias heuristic, collected into a set and
lowercased at the end. -/
def extractTableNames (sql : String) : List String :=
  let norm := (normalizeNewlines sql).data
  let fromCaps := scanMatches (tryKeywordIdentAt ['f', 'r', 'o', 'm']) norm
  let joinCaps := scanMatches (tryKeywordIdentAt ['j', 'o', 'i', 'n']) norm
  let asCaps := scanMatches tryAsAt norm
  let names := fromCaps.foldl (fun acc c => insertUniq acc (canonName c)) []
  let names := joinCaps.foldl (fun acc c => insertUniq acc (canonName c)) names
  let names := asCaps.foldl
    (fun acc c =>
      if strStartsWith (lowerString c) "select" then acc
      else insertUniq acc (canonName c))
    names
  names.map lowerString

end ChatRoute

namespace PreviewRoute

/-- `extractTableNames` of `src/app/api/execute-preview/route.ts`: only the
`from`- and `join`-matches. -/
def extractTableNames (sql : String) : List String :=
  let norm := (normalizeNewlines sql).data
  let fromCaps := scanMatches (tryKeywordIdentAt ['f', 'r', 'o', 'm']) norm
  let joinCaps := scanMatches (tryKeywordIdentAt ['j', 'o', 'i', 'n']) norm
  let names := fromCaps.foldl (fun acc c => insertUniq acc (canonName c)) []
  let names := joinCaps.foldl (fun acc c => insertUniq acc (canonName c)) names
  names.map lowerString

end PreviewRoute

lemma mem_insertUniq (l : List String) (x y : String) :
    y ∈ insertUniq l x ↔ y ∈ l ∨ y = x := by
  unfold insertUniq
  split
  · next h =>
      refine ⟨Or.inl, ?_⟩
      rintro (hy | rfl)
      · exact hy
      · exact h
  · simp [List.mem_append]

lemma mem_foldl_insertUniq (f : String → String) (caps : List String) :
    ∀ (acc : List String) (x : String),
      x ∈ caps.foldl (fun a c => insertUniq a (f c)) acc ↔
        x ∈ acc ∨ ∃ c ∈ caps, f c = x := by
  induction caps with
  | nil => simp
  | cons c cs ih =>
    intro acc x
    simp only [List.foldl_cons, ih, mem_insertUniq, List.mem_cons]
    constructor
    · rintro ((h | h) | ⟨d, hd, he⟩)
      · exact Or.inl h
      · exact Or.inr ⟨c, Or.inl rfl, h.symm⟩
      · exact Or.inr ⟨d, Or.inr hd, he⟩
    · rintro (h | ⟨d, (rfl | hd), he⟩)
      · exact Or.inl (Or.inl h)
      · exact Or.inl (Or.inr he.symm)
      · exact Or.inr ⟨d, hd, he⟩

/-- The example query of the specification (`SELECT * FROM Sales s JOIN
Products p ON ...` with a concrete join condition). -/
def exampleJoinQuery : String :=
  "SELECT * FROM Sales s JOIN Products p ON s.product_id = p.id"

/-- **C7, counterexample.** On `SELECT price AS p FROM sales` the chat route's
`extractTableNames` also returns `price`, which is introduced by the
`<name> AS <alias>` heuristic and not by any `FROM`/`JOIN` occurrence (the
`FROM`/`JOIN`-only extraction of the execute-preview route returns exactly
`[sales]` there), so the extractor does not return only `FROM`/`JOIN` names. -/
theorem extractTableNames_as_alias_counterexample :
    ChatRoute.extractTableNames "SELECT price AS p FROM sales" =
        ["sales", "price"] ∧
      PreviewRoute.extractTableNames "SELECT price AS p FROM sales" = ["sales"] := by
  constructor <;> rfl

/-- **C7, amended.** The execute-preview route's `extractTableNames` returns
exactly the names introduced by `FROM <name>` and `JOIN <name>` occurrences,
each reduced to its last dot-separated segment, stripped of quoting characters
and lowercased, with duplicates collapsed; the chat route's version may add
identifiers found in `<name> AS <alias>` position. On the example query over
`Sales` joined with `Products`, both versions return exactly
`{sales, products}`. -/
theorem extractTableNames_from_join_only :
    (∀ sql x,
        x ∈ PreviewRoute.extractTableNames sql ↔
          ∃ c ∈ fromJoinCaptures sql, lowerString (canonName c) = x) ∧
      PreviewRoute.extractTableNames exampleJoinQuery = ["sales", "products"] ∧
      ChatRoute.extractTableNames exampleJoinQuery = ["sales", "products"] := by
  refine ⟨fun sql x => ?_, rfl, rfl⟩
  simp only [PreviewRoute.extractTableNames, fromJoinCaptures, List.mem_map,
    mem_foldl_insertUniq, List.mem_append, List.not_mem_nil, false_or]
  constructor
  · rintro ⟨y, (⟨c, hc, rfl⟩ | ⟨c, hc, rfl⟩), rfl⟩
    · exact ⟨c, Or.inl hc, rfl⟩
    · exact ⟨c, Or.inr hc, rfl⟩
  · rintro ⟨c, (hc | hc), rfl⟩
    · exact ⟨canonName c, Or.inl ⟨c, hc, rfl⟩, rfl⟩
    · exact ⟨canonName c, Or.inr ⟨c, hc, rfl⟩, rfl⟩

/-! ### Access policy (RBAC) -/

/-- A returned result of `checkRBACOnSql`: `{ ok: boolean; reason?: string }`. -/
structure RbacResult where
  ok : Bool
  reason : Option String
deriving Repr, DecidableEq

/-- The observable outcome of a `checkRBACOnSql` call: a returned result
object, or a thrown `TypeError` (see `OBJECT_PROTOTYPE_PROPS`). -/
inductive RbacOutcome where
  | result (r : RbacResult)
  | thrown
deriving Repr, DecidableEq

/-- Did the call return an object with `ok: true`? A thrown call returned
nothing. -/
def RbacOutcome.ok : RbacOutcome → Bool
  | .result r => r.ok
  | .thrown => false

/-- The static role allowlist, identical in both route files. Its JS value
is a plain object literal, so a property read on it falls back to the
`Object.prototype` chain for keys that are not entries of the map itself. -/
def ROLE_TABLE_ALLOWLIST : List (String × List String) :=
  [("admin", ["*"]),
   ("finance", ["sales", "products"]),
   ("analyst", ["sales", "products"]),
   ("hr", []),
   ("guest", ["products"])]

/-- The property names a plain object literal inherits from
`Object.prototype`: for these keys `ROLE_TABLE_ALLOWLIST[key]` evaluates to a
truthy non-array (a function, or the prototype object for `__proto__`), so
`if (!allowed)` is skipped and `allowed.includes('*')` throws `TypeError`. -/
def OBJECT_PROTOTYPE_PROPS : List String :=
  ["constructor", "hasOwnProperty", "isPrototypeOf", "propertyIsEnumerable",
   "toLocaleString", "toString", "valueOf", "__defineGetter__",
   "__defineSetter__", "__lookupGetter__", "__lookupSetter__", "__proto__"]

namespace ChatRoute

/-- `checkRBACOnSql` of the chat route. `!userRole` in JS is true both for a
missing role and for the empty string, so both fall into the permissive
no-role branch. `ROLE_TABLE_ALLOWLIST[userRole]` is a JS property access: an
own entry gives its allowlist; a key naming an inherited `Object.prototype`
member gives a truthy non-array, so `if (!allowed)` is skipped and
`allowed.includes('*')` throws `TypeError`; any other key gives `undefined`
and the unknown-role result. -/
def checkRBACOnSql (sql : String) (userRole : Option String) : RbacOutcome :=
  match userRole with
  | none => .result ⟨true, none⟩
  | some r =>
    if r = "" then .result ⟨true, none⟩
    else
      match List.lookup r ROLE_TABLE_ALLOWLIST with
      | some allowed =>
        if allowed.contains "*" then .result ⟨true, none⟩
        else
          match (extractTableNames sql).find? (fun t => !(allowed.contains t)) with
          | some t =>
            .result ⟨false,
              some ("Role \"" ++ r ++ "\" is not allowed to access table \"" ++ t ++ "\"")⟩
          | none => .result ⟨true, none⟩
      | none =>
        if OBJECT_PROTOTYPE_PROPS.contains r then .thrown
        else .result ⟨false, some ("Unknown role: " ++ r)⟩

end ChatRoute

namespace PreviewRoute

/-- `checkRBACOnSql` of the execute-preview route (same logic, including the
prototype-chain property access, but using this route's
`extractTableNames`). -/
def checkRBACOnSql (sql : String) (userRole : Option String) : RbacOutcome :=
  match userRole with
  | none => .result ⟨true, none⟩
  | some r =>
    if r = "" then .result ⟨true, none⟩
    else
      match List.lookup r ROLE_TABLE_ALLOWLIST with
      | some allowed =>
        if allowed.contains "*" then .result ⟨true, none⟩
        else
          match (extractTableNames sql).find? (fun t => !(allowed.contains t)) with
          | some t =>
            .result ⟨false,
              some ("Role \"" ++ r ++ "\" is not allowed to access table \"" ++ t ++ "\"")⟩
          | none => .result ⟨true, none⟩
      | none =>
        if OBJECT_PROTOTYPE_PROPS.contains r then .thrown
        else .result ⟨false, some ("Unknown role: " ++ r)⟩

end PreviewRoute

lemma lookup_role_ne_empty {r : String} {allowed : List String}
    (hr : List.lookup r ROLE_TABLE_ALLOWLIST = some allowed) : ¬ r = "" := by
  intro h
  have hnone : List.lookup "" ROLE_TABLE_ALLOWLIST = none := by rfl
  rw [h, hnone] at hr
  exact Option.noConfusion hr

/-- **C10.** For every role present in the policy map (including `hr`, whose
allowed-table list is empty), the access check returns Allow whenever the
extractor finds no table names in the SQL; and whenever it denies for such a
role, at least one extracted table name is outside the role's allowlist. This
holds for both route versions. -/
theorem checkRBAC_no_tables_allows :
    ∀ (sql r : String) (allowed : List String),
      List.lookup r ROLE_TABLE_ALLOWLIST = some allowed →
      (ChatRoute.extractTableNames sql = [] →
          (ChatRoute.checkRBACOnSql sql (some r)).ok = true) ∧
        ((ChatRoute.checkRBACOnSql sql (some r)).ok = false →
          ∃ t ∈ ChatRoute.extractTableNames sql, allowed.contains t = false) ∧
        (PreviewRoute.extractTableNames sql = [] →
          (PreviewRoute.checkRBACOnSql sql (some r)).ok = true) ∧
        ((PreviewRoute.checkRBACOnSql sql (some r)).ok = false →
          ∃ t ∈ PreviewRoute.extractTableNames sql, allowed.contains t = false) := by
  intro sql r allowed hr
  have hne : ¬ r = "" := lookup_role_ne_empty hr
  refine ⟨?_, ?_, ?_, ?_⟩
  · intro hempty
    simp only [ChatRoute.checkRBACOnSql, if_neg hne, hr, hempty, List.find?_nil]
    split <;> rfl
  · intro hfalse
    simp only [ChatRoute.checkRBACOnSql, if_neg hne, hr] at hfalse
    by_cases hstar : allowed.contains "*"
    · rw [if_pos hstar] at hfalse; exact Bool.noConfusion hfalse
    · rw [if_neg hstar] at hfalse
      rcases hfind : (ChatRoute.extractTableNames sql).find? (fun t => !(allowed.contains t)) with
        _ | t
      · rw [hfind] at hfalse; exact Bool.noConfusion hfalse
      · refine ⟨t, List.mem_of_find?_eq_some hfind, ?_⟩
        have := List.find?_some hfind
        simpa using this
  · intro hempty
    simp only [PreviewRoute.checkRBACOnSql, if_neg hne, hr, hempty, List.find?_nil]
    split <;> rfl
  · intro hfalse
    simp only [PreviewRoute.checkRBACOnSql, if_neg hne, hr] at hfalse
    by_cases hstar : allowed.contains "*"
    · rw [if_pos hstar] at hfalse; exact Bool.noConfusion hfalse
    · rw [if_neg hstar] at hfalse
      rcases hfind : (PreviewRoute.extractTableNames sql).find? (fun t => !(allowed.contains t)) with
        _ | t
      · rw [hfind] at hfalse; exact Bool.noConfusion hfalse
      · refine ⟨t, List.mem_of_find?_eq_some hfind, ?_⟩
        have := List.find?_some hfind
        simpa using this

/-- **C10, witness.** The role `hr` (whose allowed-table list is empty) is
allowed to run `SELECT 1`, from which no table name is extracted, under both
versions of the check. -/
theorem checkRBAC_no_tables_allows_witness :
    (ChatRoute.checkRBACOnSql "SELECT 1" (some "hr")).ok = true ∧
      (PreviewRoute.checkRBACOnSql "SELECT 1" (some "hr")).ok = true :=
  ⟨(checkRBAC_no_tables_allows "SELECT 1" "hr" [] (by rfl)).1 (by rfl),
   (checkRBAC_no_tables_allows "SELECT 1" "hr" [] (by rfl)).2.2.1 (by rfl)⟩

/-! ### PII masking

`maskValue` applies, in order, the three global replaces
`EMAIL_RE = /([a-zA-Z0-9._%+-]+)@([a-zA-Z0-9.-]+\.[a-zA-Z]{2,})/g` (replaced
by the first character of the local part followed by `***@***`),
`PHONE_RE = /(\+?\d{1,3}[-.\s]?(\d{2,4})[-.\s]?\d{3,4}[-.\s]?\d{3,4})/g`
(replaced by `***-PHONE-***`) and
`CREDIT_CARD_RE = /\b(?:\d[ -]*?){13,16}\b/g` (replaced by `****-CARD-****`).
Each matcher below implements the JS engine's match for the concrete pattern
at one position: ordered greedy backtracking for the phone pattern (component
preference orders, leftmost component most significant), greedy domain split
for the email pattern, and the lazy separator absorption plus greedy
repetition count of the card pattern. -/

/-- Email local-part characters `[a-zA-Z0-9._%+-]`. -/
def isLocalChar (c : Char) : Bool :=
  c.isAlphanum || c == '.' || c == '_' || c == '%' || c == '+' || c == '-'

/-- Email domain characters `[a-zA-Z0-9.-]`. -/
def isDomainChar (c : Char) : Bool := c.isAlphanum || c == '.' || c == '-'

/-- Phone separator characters `[-.\s]`. -/
def isPhoneSep (c : Char) : Bool := c == '-' || c == '.' || isJsSpace c

/-- Card separator characters `[ -]`. -/
def isCardSep (c : Char) : Bool := c == ' ' || c == '-'

/-- The character just before index `i`, if any. -/
def prevC (cs : List Char) (i : Nat) : Option Char :=
  match i with
  | 0 => none
  | j + 1 => getC cs j

/-- Match `EMAIL_RE` at the head of `l`: maximal local-part run, a literal
`@`, then the greedy domain split (the last eligible dot of the
domain-character run, followed by a maximal run of at least two letters).
Returns the first character of the local part (capture `a[0]`) and the match
length. -/
def tryEmail0 (l : List Char) : Option (Char × Nat) :=
  let L := runLen isLocalChar l 0
  if L = 0 then none
  else if getC l L == some '@' then
    let j := L + 1
    let R := runLen isDomainChar l j
    let r1? := (List.range R).reverse.find? fun r1 =>
      decide (1 ≤ r1) && (getC l (j + r1) == some '.') &&
        decide (2 ≤ runLen Char.isAlpha l (j + r1 + 1))
    match r1?, getC l 0 with
    | some r1, some c0 =>
      some (c0, j + r1 + 1 + runLen Char.isAlpha l (j + r1 + 1))
    | _, _ => none
  else none

/-- Match `EMAIL_RE` at index `i` (the matcher reads only forward). -/
def tryEmailAt (cs : List Char) (i : Nat) : Option (Char × Nat) :=
  tryEmail0 (cs.drop i)

/-- `n` consecutive digits starting at index `i`. -/
def digitsAt (cs : List Char) (i n : Nat) : Bool :=
  (List.range n).all fun k => (getC cs (i + k)).elim false Char.isDigit

/-- An optional phone separator of width `s ∈ {0, 1}` at index `i`. -/
def sepOkAt (cs : List Char) (i s : Nat) : Bool :=
  s == 0 || (getC cs i).elim false isPhoneSep

/-- All component-width combinations of `PHONE_RE` in the JS engine's
backtracking preference order: optional `+` first, each greedy counted
quantifier from its maximum down, earlier components most significant. -/
def phoneShapes : List (Bool × Nat × Nat × Nat × Nat × Nat × Nat × Nat) :=
  [true, false].flatMap fun p =>
    [3, 2, 1].flatMap fun n1 =>
      [1, 0].flatMap fun s1 =>
        [4, 3, 2].flatMap fun n2 =>
          [1, 0].flatMap fun s2 =>
            [4, 3].flatMap fun n3 =>
              [1, 0].flatMap fun s3 =>
                [4, 3].map fun n4 => (p, n1, s1, n2, s2, n3, s3, n4)

/-- Match one component-width combination of `PHONE_RE` at the head of `l`. -/
def tryPhoneShape0 (l : List Char)
    (sh : Bool × Nat × Nat × Nat × Nat × Nat × Nat × Nat) : Option Nat :=
  let (p, n1, s1, n2, s2, n3, s3, n4) := sh
  let pl := if p then 1 else 0
  let o1 := pl
  let o2 := o1 + n1 + s1
  let o3 := o2 + n2 + s2
  let o4 := o3 + n3 + s3
  if (!p || (getC l 0 == some '+')) &&
      digitsAt l o1 n1 && sepOkAt l (o1 + n1) s1 &&
      digitsAt l o2 n2 && sepOkAt l (o2 + n2) s2 &&
      digitsAt l o3 n3 && sepOkAt l (o3 + n3) s3 &&
      digitsAt l o4 n4 then
    some (pl + n1 + s1 + n2 + s2 + n3 + s3 + n4)
  else none

/-- Match `PHONE_RE` at the head of `l` (first combination in preference
order). -/
def tryPhone0 (l : List Char) : Option Nat :=
  phoneShapes.findSome? (tryPhoneShape0 l)

/-- Match `PHONE_RE` at index `i` (the matcher reads only forward). -/
def tryPhoneAt (cs : List Char) (i : Nat) : Option Nat :=
  tryPhone0 (cs.drop i)

/-- The backtracking continuation of `CREDIT_CARD_RE` after `k` complete units
`\d[ -]*?` ending at `pos`, in the engine's priority order: try a further
iteration of the greedy `{13,16}` first, then exit the quantifier and check
the trailing `\b`, and only then expand the last unit's lazy `[ -]*?` by one
separator. Returns the exclusive match end. -/
def cardGo (cs : List Char) : Nat → Nat → Nat → Option Nat
  | 0, _, _ => none
  | fuel + 1, k, pos =>
    let step1 : Option Nat :=
      if k < 16 then
        match getC cs pos with
        | some c => if c.isDigit then cardGo cs fuel (k + 1) (pos + 1) else none
        | none => none
      else none
    match step1 with
    | some e => some e
    | none =>
      if 13 ≤ k && atWordBoundary cs pos then some pos
      else
        match getC cs pos with
        | some c => if isCardSep c then cardGo cs fuel k (pos + 1) else none
        | none => none

/-- Match `CREDIT_CARD_RE` at the head of `l`, with `pc` the character just
before `l` (if any): leading `\b`, a first digit, then the quantified units
via `cardGo`. -/
def tryCard0 (pc : Option Char) (l : List Char) : Option Nat :=
  let prevW := (pc.map isWordChar).getD false
  let curW := ((getC l 0).map isWordChar).getD false
  if prevW != curW then
    match getC l 0 with
    | some c => if c.isDigit then cardGo l (l.length + 1) 1 1 else none
    | none => none
  else none

/-- Match `CREDIT_CARD_RE` at index `i` (the matcher reads one character back
for the leading `\b`, then only forward). -/
def tryCardAt (cs : List Char) (i : Nat) : Option Nat :=
  tryCard0 (prevC cs i) (cs.drop i)

/-- `String.replace` with a global regex, from index `i` on: at each index
not inside a previous match try the pattern; on a match emit the replacement
and continue just past the match, otherwise emit the character. -/
def replaceGo (tryAt : List Char → Nat → Option (List Char × Nat))
    (cs : List Char) (i : Nat) : List Char :=
  if _h : i < cs.length then
    match tryAt cs i with
    | some (rep, len) => rep ++ replaceGo tryAt cs (i + max len 1)
    | none => cs.getD i ' ' :: replaceGo tryAt cs (i + 1)
  else []
termination_by cs.length - i
decreasing_by all_goals omega

/-- `String.replace` with a global regex: the scan started at index 0. -/
def replaceScan (tryAt : List Char → Nat → Option (List Char × Nat))
    (cs : List Char) : List Char :=
  replaceGo tryAt cs 0

/-- The email pass's matcher with its replacement `a[0] + '***@***'`. -/
def emailTry : List Char → Nat → Option (List Char × Nat) := fun cs i =>
  (tryEmailAt cs i).map fun x => (x.1 :: "***@***".data, x.2)

/-- The phone pass's matcher with its replacement `***-PHONE-***`. -/
def phoneTry : List Char → Nat → Option (List Char × Nat) := fun cs i =>
  (tryPhoneAt cs i).map fun len => ("***-PHONE-***".data, len)

/-- The card pass's matcher with its replacement `****-CARD-****`. -/
def cardTry : List Char → Nat → Option (List Char × Nat) := fun cs i =>
  (tryCardAt cs i).map fun len => ("****-CARD-****".data, len)

/-- `s.replace(EMAIL_RE, (m, a) => a[0] + '***@***')`. -/
def maskEmail (s : String) : String := ⟨replaceScan emailTry s.data⟩

/-- `s.replace(PHONE_RE, '***-PHONE-***')`. -/
def maskPhone (s : String) : String := ⟨replaceScan phoneTry s.data⟩

/-- `s.replace(CREDIT_CARD_RE, '****-CARD-****')`. -/
def maskCard (s : String) : String := ⟨replaceScan cardTry s.data⟩

/-- A JS row value: a string, or an opaque non-string value. -/
inductive JsValue where
  | str (s : String)
  | nonString (tag : Nat)
deriving Repr, DecidableEq

/-- `maskValue`: strings get the three masks applied in order (email, phone,
card); non-strings pass through unchanged. -/
def maskValue : JsValue → JsValue
  | .str s => .str (maskCard (maskPhone (maskEmail s)))
  | v => v

/-- A result row: column name to value, in `Object.entries` order. -/
abbrev Row := List (String × JsValue)

/-- `maskRow`: apply `maskValue` to every field of the row. -/
def maskRow (row : Row) : Row := row.map fun kv => (kv.1, maskValue kv.2)

/-! ### Preview store and TTL sweep -/

/-- `PreviewEntry` of `src/lib/preview-types.ts`. -/
structure PreviewEntry where
  query : String
  userId : Option String
  userRole : Option String
  createdAt : Nat
deriving Repr, DecidableEq

/-- An in-memory `Map<string, PreviewEntry>`: an association list whose keys
are unique for every store reachable from the empty map. -/
abbrev Store := List (String × PreviewEntry)

/-- `Map.get`. -/
def storeGet (s : Store) (id : String) : Option PreviewEntry := List.lookup id s

/-- `Map.set` (replacing any previous binding of the key). -/
def storeSet (s : Store) (id : String) (e : PreviewEntry) : Store :=
  (id, e) :: s.filter fun kv => kv.1 ≠ id

/-- `Map.delete` (a no-op on an absent key). -/
def storeDelete (s : Store) (id : String) : Store := s.filter fun kv => kv.1 ≠ id

/-- `PREVIEW_TTL_MS = 1000 * 60 * 60` (one hour). -/
def PREVIEW_TTL_MS : Nat := 1000 * 60 * 60

/-- One run of the cleanup interval's body (chat route, lines 24-31): delete
every entry with `now - entry.createdAt > PREVIEW_TTL_MS`. -/
def sweepPreviews (now : Nat) (s : Store) : Store :=
  s.filter fun kv => !(decide (now - kv.2.createdAt > PREVIEW_TTL_MS))

/-- JS truthiness of an optional string: `undefined` and `""` are falsy. -/
def jsTruthy : Option String → Option String
  | some s => if s = "" then none else some s
  | none => none

/-! ### The data-store collaborator and the audit insert -/

/-- Result of `db.run`: an array of row objects, or an opaque non-array
result. -/
inductive RunResult where
  | rows (rs : List Row)
  | scalar (tag : Nat)
deriving Repr, DecidableEq

/-- `Array.isArray(rows) ? rows.map(maskRow) : rows`. -/
def maskRunResult : RunResult → RunResult
  | .rows rs => .rows (rs.map maskRow)
  | r => r

/-- `.replace(/'/g, "''")`. -/
def escapeSQuotes (s : String) : String :=
  ⟨s.data.foldr (fun c acc => if c = '\'' then c :: c :: acc else c :: acc) []⟩

/-- The composed best-effort audit statement
`INSERT INTO query_logs (preview_id, executed_at, query, user_id) VALUES (...)`,
identical in both route files. -/
def auditInsertSql (previewId userId : Option String) (sql : String) : String :=
  let q := "'"
  let pidPart :=
    match (jsTruthy previewId).map escapeSQuotes with
    | some p => q ++ p ++ q
    | none => "NULL"
  let uidPart :=
    match (jsTruthy userId).map escapeSQuotes with
    | some u => q ++ u ++ q
    | none => "NULL"
  "INSERT INTO query_logs (preview_id, executed_at, query, user_id) VALUES (" ++
    pidPart ++ ", datetime(" ++ q ++ "now" ++ q ++ "), " ++ q ++
    escapeSQuotes sql ++ q ++ ", " ++ uidPart ++ ")"

/-! ### The two request handlers -/

namespace PreviewRoute

/-- The responses of `POST /api/execute-preview`: 400 `previewId required`,
404 `Preview not found or expired`, 400 `Preview contains forbidden
statements`, 403 `RBAC blocked execution`, the 500 produced by the handler's
outer `catch` when something inside threw (in particular the RBAC check's
`TypeError` on a prototype-chain role), or 200 with masked rows and the
executed query text. -/
inductive ApiResponse where
  | previewIdRequired
  | previewNotFound
  | forbiddenStatements
  | rbacBlocked (reason : Option String)
  | internalError
  | ok (rows : RunResult) (executedQuery : String)
deriving Repr, DecidableEq

/-- Whether the response is the 200 success. -/
def ApiResponse.isOk : ApiResponse → Bool
  | .ok _ _ => true
  | _ => false

/-- The request body `{ previewId, userId, userRole }`. -/
structure PostBody where
  previewId : Option String
  userId : Option String
  userRole : Option String
deriving Repr, DecidableEq

/-- The outcome of one request: the response, the global store afterwards,
and the SQL texts passed to `db.run`, in order. -/
structure PostOutcome where
  response : ApiResponse
  store : Store
  runCalls : List String
deriving Repr, DecidableEq

/-- `POST` of `src/app/api/execute-preview/route.ts`, the data store
abstracted as `run` (the audit insert is best-effort: its failure is caught
and ignored, so it does not alter the control flow). -/
def POST (run : String → RunResult) (store : Store) (b : PostBody) : PostOutcome :=
  match jsTruthy b.previewId with
  | none => ⟨.previewIdRequired, store, []⟩
  | some pid =>
    match storeGet store pid with
    | none => ⟨.previewNotFound, store, []⟩
    | some entry =>
      let sql := entry.query
      if FORBIDDEN_RE_test sql then ⟨.forbiddenStatements, store, []⟩
      else
        match checkRBACOnSql sql (b.userRole.or entry.userRole) with
        | .thrown => ⟨.internalError, store, []⟩
        | .result rbac =>
          if rbac.ok then
            ⟨.ok (maskRunResult (run sql)) sql, storeDelete store pid,
              [sql, auditInsertSql (some pid) b.userId sql]⟩
          else ⟨.rbacBlocked rbac.reason, store, []⟩

end PreviewRoute

namespace ChatRoute

/-- The input schema of the chat route's `db` tool (`dryRun` already
defaulted to `false`). -/
structure DbToolArgs where
  query : String
  dryRun : Bool
  userId : Option String
  userRole : Option String
  previewId : Option String
deriving Repr, DecidableEq

/-- How the `db` tool's `execute` ends: an error object, a preview object,
rows with the executed query, or — since nothing inside `execute` catches
it — a raised exception (the RBAC check's `TypeError` on a prototype-chain
role) propagating out of the tool instead of any structured return. -/
inductive DbToolResult where
  | error (msg : String)
  | preview (previewId : String) (formattedQuery : String)
      (explanation : String) (note : String)
  | rows (rows : RunResult) (executedQuery : String)
  | thrown
deriving Repr, DecidableEq

/-- Whether the result is the executed-rows object. -/
def DbToolResult.isRows : DbToolResult → Bool
  | .rows _ _ => true
  | _ => false

/-- The outcome of one `db` tool call: the result, the chat route's store
afterwards, and the SQL texts passed to `db.run`, in order. -/
structure DbToolOutcome where
  result : DbToolResult
  store : Store
  runCalls : List String
deriving Repr, DecidableEq

/-- The tool's first guard message. -/
def forbiddenMsg : String :=
  "Query contains forbidden statements (INSERT/UPDATE/DELETE/DROP/ALTER/TRUNCATE). Execution aborted."

/-- The preview note returned by the dry-run path. -/
def previewNote : String :=
  "This is a preview. To execute use the /api/execute-preview REST endpoint (POST \x7b previewId, userId, userRole \x7d)."

/-- The `db` tool's `execute` of `src/app/api/chat/route.ts`. `fmt` abstracts
the external `sql-formatter`, `explain` the explanation collaborator
(`cohereExplainSQL` with its heuristic fallback), `run` the data store, `now`
the clock and `newId` the value of `makePreviewId()`. -/
def dbToolExecute (fmt explain : String → String) (run : String → RunResult)
    (now : Nat) (newId : String) (store : Store) (a : DbToolArgs) : DbToolOutcome :=
  if FORBIDDEN_RE_test a.query then
    ⟨.error forbiddenMsg, store, []⟩
  else
    let formatted := fmt a.query
    match checkRBACOnSql formatted a.userRole with
    | .thrown => ⟨.thrown, store, []⟩
    | .result rbac =>
      if !rbac.ok then
        ⟨.error ("RBAC blocked query execution: " ++ rbac.reason.getD "undefined"),
          store, []⟩
      else if a.dryRun then
        ⟨.preview newId formatted (explain formatted) previewNote,
          storeSet store newId ⟨formatted, a.userId, a.userRole, now⟩, []⟩
      else
        match jsTruthy a.previewId with
        | some pid =>
          match storeGet store pid with
          | none => ⟨.error "Preview id not found or expired.", store, []⟩
          | some entry =>
            let toRun := entry.query
            match checkRBACOnSql toRun (a.userRole.or entry.userRole) with
            | .thrown => ⟨.thrown, store, []⟩
            | .result r =>
              if !r.ok then
                ⟨.error ("RBAC blocked query execution: " ++ r.reason.getD "undefined"),
                  store, []⟩
              else if FORBIDDEN_RE_test toRun then
                ⟨.error "Query contains forbidden statements and will not be executed.",
                  store, []⟩
              else
                ⟨.rows (maskRunResult (run toRun)) toRun, storeDelete store pid,
                  [toRun, auditInsertSql a.previewId a.userId toRun]⟩
        | none =>
          let toRun := formatted
          if FORBIDDEN_RE_test toRun then
            ⟨.error "Query contains forbidden statements and will not be executed.",
              store, []⟩
          else
            ⟨.rows (maskRunResult (run toRun)) toRun, store,
              [toRun, auditInsertSql a.previewId a.userId toRun]⟩

end ChatRoute

/-- The one server process: the chat route's module-local `pendingPreviews`
map and the execute-preview route's `globalThis.__PENDING_PREVIEWS__` map are
two distinct `Map` objects. -/
structure ServerState where
  chatStore : Store
  globalStore : Store
deriving Repr, DecidableEq

/-- The chat `db` tool acting on the server state: it reads and writes only
the chat route's module-local map. -/
def chatDbToolStep (fmt explain : String → String) (run : String → RunResult)
    (now : Nat) (newId : String) (st : ServerState) (a : ChatRoute.DbToolArgs) :
    ChatRoute.DbToolOutcome × ServerState :=
  let o := ChatRoute.dbToolExecute fmt explain run now newId st.chatStore a
  (o, { st with chatStore := o.store })

/-- `POST /api/execute-preview` acting on the server state: it reads and
writes only the global map. -/
def executePreviewStep (run : String → RunResult) (st : ServerState)
    (b : PreviewRoute.PostBody) : PreviewRoute.PostOutcome × ServerState :=
  let o := PreviewRoute.POST run st.globalStore b
  (o, { st with globalStore := o.store })

/-! ### Store lemmas -/

lemma storeGet_cons_eq (k : String) (v : PreviewEntry) (t : Store) :
    storeGet ((k, v) :: t) k = some v := by
  simp [storeGet, List.lookup]

lemma storeGet_cons_ne (k id : String) (v : PreviewEntry) (t : Store) (h : id ≠ k) :
    storeGet ((k, v) :: t) id = storeGet t id := by
  have hbeq : (id == k) = false := beq_eq_false_iff_ne.mpr h
  simp [storeGet, List.lookup, hbeq]

lemma storeGet_storeSet_self (s : Store) (id : String) (e : PreviewEntry) :
    storeGet (storeSet s id e) id = some e := by
  simp [storeSet, storeGet_cons_eq]

lemma storeGet_storeDelete_self (s : Store) (id : String) :
    storeGet (storeDelete s id) id = none := by
  induction s with
  | nil => rfl
  | cons kv t ih =>
    rcases kv with ⟨k, v⟩
    by_cases h : k = id
    · simpa [storeDelete, List.filter_cons, h] using ih
    · rw [show storeDelete ((k, v) :: t) id = (k, v) :: storeDelete t id by
        simp [storeDelete, List.filter_cons, h]]
      rw [storeGet_cons_ne k id v _ (Ne.symm h)]
      exact ih

lemma storeGet_sweep_fresh (s : Store) (id : String) (e : PreviewEntry) (now : Nat)
    (hget : storeGet s id = some e)
    (hfresh : ¬ now - e.createdAt > PREVIEW_TTL_MS) :
    storeGet (sweepPreviews now s) id = some e := by
  induction s with
  | nil => simp [storeGet, List.lookup] at hget
  | cons kv t ih =>
    rcases kv with ⟨k, v⟩
    by_cases hk : id = k
    · subst hk
      rw [storeGet_cons_eq] at hget
      have hv : v = e := Option.some.inj hget
      subst hv
      have : sweepPreviews now ((id, v) :: t) = (id, v) :: sweepPreviews now t := by
        simp [sweepPreviews, List.filter_cons, hfresh]
      rw [this, storeGet_cons_eq]
    · rw [storeGet_cons_ne k id v t hk] at hget
      have ih' := ih hget
      by_cases hexp : now - v.createdAt > PREVIEW_TTL_MS
      · have : sweepPreviews now ((k, v) :: t) = sweepPreviews now t := by
          simp [sweepPreviews, List.filter_cons, hexp]
        rw [this]; exact ih'
      · have : sweepPreviews now ((k, v) :: t) = (k, v) :: sweepPreviews now t := by
          simp [sweepPreviews, List.filter_cons, hexp]
        rw [this, storeGet_cons_ne k id v _ hk]; exact ih'

lemma lookup_none_of_not_mem_keys (s : Store) (id : String)
    (h : id ∉ s.map Prod.fst) : storeGet s id = none := by
  induction s with
  | nil => rfl
  | cons kv t ih =>
    rcases kv with ⟨k, v⟩
    simp only [List.map_cons, List.mem_cons] at h
    push_neg at h
    rw [storeGet_cons_ne k id v t h.1]
    exact ih h.2

lemma storeGet_sweep_expired (s : Store) (id : String) (e : PreviewEntry) (now : Nat)
    (hnd : (s.map Prod.fst).Nodup)
    (hget : storeGet s id = some e)
    (hexp : now - e.createdAt > PREVIEW_TTL_MS) :
    storeGet (sweepPreviews now s) id = none := by
  induction s with
  | nil => simp [storeGet, List.lookup] at hget
  | cons kv t ih =>
    rcases kv with ⟨k, v⟩
    simp only [List.map_cons, List.nodup_cons] at hnd
    by_cases hk : id = k
    · subst hk
      rw [storeGet_cons_eq] at hget
      have hv : v = e := Option.some.inj hget
      subst hv
      have hnone : storeGet (sweepPreviews now t) id = none := by
        -- sweeping only removes entries, so an absent key stays absent
        have : id ∉ (sweepPreviews now t).map Prod.fst := by
          intro hmem
          rcases List.mem_map.mp hmem with ⟨p, hp, hfst⟩
          exact hnd.1 (List.mem_map.mpr ⟨p, List.mem_of_mem_filter hp, hfst⟩)
        exact lookup_none_of_not_mem_keys _ id this
      have : sweepPreviews now ((id, v) :: t) = sweepPreviews now t := by
        simp [sweepPreviews, List.filter_cons, hexp]
      rw [this]; exact hnone
    · rw [storeGet_cons_ne k id v t hk] at hget
      have ih' := ih hnd.2 hget
      by_cases hv : now - v.createdAt > PREVIEW_TTL_MS
      · have : sweepPreviews now ((k, v) :: t) = sweepPreviews now t := by
          simp [sweepPreviews, List.filter_cons, hv]
        rw [this]; exact ih'
      · have : sweepPreviews now ((k, v) :: t) = (k, v) :: sweepPreviews now t := by
          simp [sweepPreviews, List.filter_cons, hv]
        rw [this, storeGet_cons_ne k id v _ hk]; exact ih'

/-- **C9.** Preview TTL lifecycle: a `get` of an id just `put` returns the
stored entry (so the same query text), independently of age; a sweep at time
`now` keeps exactly the entries whose age does not exceed the one-hour TTL,
so a stored entry survives a sweep while fresh and, once its age exceeds the
TTL, a sweep removes it and `get` returns not-found. -/
theorem preview_ttl_lifecycle :
    ∀ (s : Store) (id : String) (e : PreviewEntry) (now : Nat),
      storeGet (storeSet s id e) id = some e ∧
        (∀ p ∈ sweepPreviews now s, now - p.2.createdAt ≤ PREVIEW_TTL_MS) ∧
        (storeGet s id = some e → now - e.createdAt ≤ PREVIEW_TTL_MS →
          storeGet (sweepPreviews now s) id = some e) ∧
        ((s.map Prod.fst).Nodup → storeGet s id = some e →
          now - e.createdAt > PREVIEW_TTL_MS →
          storeGet (sweepPreviews now s) id = none) := by
  intro s id e now
  refine ⟨storeGet_storeSet_self s id e, ?_, ?_, ?_⟩
  · intro p hp
    have := List.of_mem_filter hp
    simpa [Nat.not_lt] using of_decide_eq_true (by simpa using this)
  · intro hget hfresh
    exact storeGet_sweep_fresh s id e now hget (by omega)
  · intro hnd hget hexp
    exact storeGet_sweep_expired s id e now hnd hget hexp

/-- **C9, witness.** A concrete entry created at time 0 is still found after a
sweep at the last fresh instant, and is gone after a sweep one millisecond
past the TTL. -/
theorem preview_ttl_lifecycle_witness :
    storeGet
        (sweepPreviews (PREVIEW_TTL_MS + 1)
          [("a", ⟨"SELECT 1", none, none, 0⟩)]) "a" = none ∧
      storeGet (sweepPreviews PREVIEW_TTL_MS [("a", ⟨"SELECT 1", none, none, 0⟩)])
        "a" = some ⟨"SELECT 1", none, none, 0⟩ :=
  ⟨(preview_ttl_lifecycle [("a", ⟨"SELECT 1", none, none, 0⟩)] "a"
      ⟨"SELECT 1", none, none, 0⟩ (PREVIEW_TTL_MS + 1)).2.2.2 (by decide) (by rfl)
      (by decide),
   (preview_ttl_lifecycle [("a", ⟨"SELECT 1", none, none, 0⟩)] "a"
      ⟨"SELECT 1", none, none, 0⟩ PREVIEW_TTL_MS).2.2.1 (by rfl) (by decide)⟩

/-! ### Concrete collaborators for evaluated scenarios -/

/-- A formatter that returns its input unchanged. -/
def idFormatter : String → String := fun s => s

/-- An explanation collaborator returning the empty explanation. -/
def noExplain : String → String := fun _ => ""

/-- A data store returning an empty row set for every query. -/
def emptyRun : String → RunResult := fun _ => .rows []

/-- The dry-run request of the cross-store scenario. -/
def c2DryRunArgs : ChatRoute.DbToolArgs :=
  ⟨"SELECT * FROM products", true, none, some "admin", none⟩

/-- First step of the cross-store scenario: the chat `db` tool's dry-run path
stores a preview under id `p1`, starting from a server with both maps empty. -/
def c2Step1 : ChatRoute.DbToolOutcome × ServerState :=
  chatDbToolStep idFormatter noExplain emptyRun 0 "p1" ⟨[], []⟩ c2DryRunArgs

/-- **C2.** The two routes do not share one logical preview store: a dry-run
`put` through the chat `db` tool returns preview id `p1` and stores the entry
in the chat route's module-local map, yet an immediate
`POST /api/execute-preview` for `p1` (no TTL involved, nothing deleted)
reports `Preview not found or expired`, because that route reads the distinct
`globalThis` map. -/
theorem preview_store_not_shared :
    c2Step1.1.result =
        .preview "p1" "SELECT * FROM products" "" ChatRoute.previewNote ∧
      storeGet c2Step1.2.chatStore "p1" =
        some ⟨"SELECT * FROM products", none, some "admin", 0⟩ ∧
      c2Step1.2.globalStore = [] ∧
      (executePreviewStep emptyRun c2Step1.2
          ⟨some "p1", none, some "admin"⟩).1.response =
        .previewNotFound := by
  exact ⟨rfl, rfl, rfl, rfl⟩

/-- The stored preview of the rejection scenario: its query text contains the
forbidden keyword `DELETE`. -/
def c3Store : Store := [("p1", ⟨"DELETE FROM sales", none, none, 0⟩)]

/-- **C3, counterexample.** An execute-preview call that resolves its id but
is rejected by the forbidden-statement guard does NOT remove the preview: the
store is unchanged and the entry is still retrievable afterwards. -/
theorem execute_preview_rejection_keeps_entry :
    (PreviewRoute.POST emptyRun c3Store ⟨some "p1", none, none⟩).response =
        .forbiddenStatements ∧
      storeGet (PreviewRoute.POST emptyRun c3Store ⟨some "p1", none, none⟩).store
          "p1" =
        some ⟨"DELETE FROM sales", none, none, 0⟩ := by
  exact ⟨rfl, rfl⟩

/-- **C3, amended.** An explicit execute-preview call that resolves its id
removes the preview only when execution succeeds; when the call is rejected
by the forbidden-statement guard or the access-policy check, the store is
left unchanged, so the entry remains retrievable until a later successful
execution or the TTL sweep removes it. -/
theorem execute_preview_delete_only_on_success :
    ∀ (run : String → RunResult) (store : Store) (b : PreviewRoute.PostBody)
      (pid : String) (entry : PreviewEntry),
      jsTruthy b.previewId = some pid →
      storeGet store pid = some entry →
      ((PreviewRoute.POST run store b).response.isOk = true →
          storeGet (PreviewRoute.POST run store b).store pid = none) ∧
        ((PreviewRoute.POST run store b).response.isOk = false →
          (PreviewRoute.POST run store b).store = store) := by
  intro run store b pid entry hpid hget
  simp only [PreviewRoute.POST, hpid, hget]
  by_cases hf : FORBIDDEN_RE_test entry.query
  · simp [hf, PreviewRoute.ApiResponse.isOk]
  · rcases hrb : PreviewRoute.checkRBACOnSql entry.query (b.userRole.or entry.userRole)
      with r | _
    · by_cases hro : r.ok
      · simp [hf, hrb, hro, PreviewRoute.ApiResponse.isOk, storeGet_storeDelete_self]
      · simp [hf, hrb, hro, PreviewRoute.ApiResponse.isOk]
    · simp [hf, hrb, PreviewRoute.ApiResponse.isOk]

/-- The stored preview of the successful-execution scenario. -/
def c3SuccessStore : Store :=
  [("p2", ⟨"SELECT * FROM products", none, some "guest", 0⟩)]

/-- **C3, witness.** After a successful execute-preview call for id `p2`, the
entry is gone from the store. -/
theorem execute_preview_delete_only_on_success_witness :
    storeGet
        (PreviewRoute.POST emptyRun c3SuccessStore ⟨some "p2", none, none⟩).store
        "p2" = none :=
  (execute_preview_delete_only_on_success emptyRun c3SuccessStore
      ⟨some "p2", none, none⟩ "p2"
      ⟨"SELECT * FROM products", none, some "guest", 0⟩ (by rfl) (by rfl)).1
    (by rfl)

/-- **C4.** One-time use, on both paths: once an execute-preview `POST`
request for a preview id succeeds, repeating the same request against the
resulting store yields the `Preview not found or expired` 404; and once the
chat `db` tool executes a stored preview (a rows result, `dryRun` false),
repeating the same call against the resulting store yields the
`Preview id not found or expired.` error. -/
theorem preview_one_time_use :
    ∀ (run : String → RunResult) (store : Store) (b : PreviewRoute.PostBody)
      (pid : String) (fmt explain : String → String) (now : Nat) (newId : String)
      (store2 : Store) (a : ChatRoute.DbToolArgs) (pid2 : String),
      (jsTruthy b.previewId = some pid →
        (PreviewRoute.POST run store b).response.isOk = true →
        (PreviewRoute.POST run (PreviewRoute.POST run store b).store b).response =
          .previewNotFound) ∧
        (jsTruthy a.previewId = some pid2 → a.dryRun = false →
          (ChatRoute.dbToolExecute fmt explain run now newId store2 a).result.isRows =
            true →
          (ChatRoute.dbToolExecute fmt explain run now newId
              (ChatRoute.dbToolExecute fmt explain run now newId store2 a).store
              a).result =
            .error "Preview id not found or expired.") := by
  intro run store b pid fmt explain now newId store2 a pid2
  constructor
  · intro hpid hok
    rcases hget : storeGet store pid with _ | entry
    · simp only [PreviewRoute.POST, hpid, hget] at hok
      exact absurd hok (by simp [PreviewRoute.ApiResponse.isOk])
    · by_cases hf : FORBIDDEN_RE_test entry.query
      · simp only [PreviewRoute.POST, hpid, hget, hf] at hok
        exact absurd hok (by simp [PreviewRoute.ApiResponse.isOk])
      · rcases hrb : PreviewRoute.checkRBACOnSql entry.query (b.userRole.or entry.userRole)
          with r | _
        · by_cases hro : r.ok
          · have hstore : (PreviewRoute.POST run store b).store = storeDelete store pid := by
              simp [PreviewRoute.POST, hpid, hget, hf, hrb, hro]
            rw [hstore]
            simp [PreviewRoute.POST, hpid, storeGet_storeDelete_self]
          · simp [PreviewRoute.POST, hpid, hget, hf, hrb, hro,
              PreviewRoute.ApiResponse.isOk] at hok
        · simp [PreviewRoute.POST, hpid, hget, hf, hrb,
            PreviewRoute.ApiResponse.isOk] at hok
  · intro hpid hdry hrows
    by_cases hf : FORBIDDEN_RE_test a.query
    · simp only [ChatRoute.dbToolExecute, hf] at hrows
      exact absurd hrows (by simp [ChatRoute.DbToolResult.isRows])
    · rcases hrb : ChatRoute.checkRBACOnSql (fmt a.query) a.userRole with r1 | _
      · by_cases hro : r1.ok
        · rcases hget : storeGet store2 pid2 with _ | entry
          · simp only [ChatRoute.dbToolExecute, hf, hrb, hro, hdry, hpid, hget] at hrows
            simp at hrows
            exact absurd hrows (by simp [ChatRoute.DbToolResult.isRows])
          · rcases hrb2 : ChatRoute.checkRBACOnSql entry.query (a.userRole.or entry.userRole)
              with r2 | _
            · by_cases hro2 : r2.ok
              · by_cases hf2 : FORBIDDEN_RE_test entry.query
                · simp only [ChatRoute.dbToolExecute, hf, hrb, hro, hdry, hpid, hget,
                    hrb2, hro2, hf2] at hrows
                  simp at hrows
                  exact absurd hrows (by simp [ChatRoute.DbToolResult.isRows])
                · have hstore :
                      (ChatRoute.dbToolExecute fmt explain run now newId store2 a).store =
                        storeDelete store2 pid2 := by
                    simp [ChatRoute.dbToolExecute, hf, hrb, hro, hdry, hpid, hget,
                      hrb2, hro2, hf2]
                  rw [hstore]
                  simp [ChatRoute.dbToolExecute, hf, hrb, hro, hdry, hpid,
                    storeGet_storeDelete_self store2 pid2]
              · simp [ChatRoute.dbToolExecute, hf, hrb, hro, hdry, hpid, hget, hrb2, hro2,
                  ChatRoute.DbToolResult.isRows] at hrows
            · simp [ChatRoute.dbToolExecute, hf, hrb, hro, hdry, hpid, hget, hrb2,
                ChatRoute.DbToolResult.isRows] at hrows
        · simp [ChatRoute.dbToolExecute, hf, hrb, hro,
            ChatRoute.DbToolResult.isRows] at hrows
      · simp [ChatRoute.dbToolExecute, hf, hrb,
          ChatRoute.DbToolResult.isRows] at hrows

/-- The stored preview of the one-time-use `POST` scenario. -/
def c4Store : Store :=
  [("p3", ⟨"SELECT * FROM products", none, some "guest", 0⟩)]

/-- The stored preview and the request of the one-time-use chat scenario. -/
def c4ChatStore : Store :=
  [("p4", ⟨"SELECT * FROM sales", none, some "analyst", 0⟩)]

/-- The chat `db` tool request executing preview `p4`. -/
def c4ChatArgs : ChatRoute.DbToolArgs :=
  ⟨"SELECT * FROM sales", false, none, some "analyst", some "p4"⟩

/-- **C4, witness.** Concrete double executions: the second `POST` for `p3`
yields 404 and the second chat `db` tool call for `p4` yields the
not-found error. -/
theorem preview_one_time_use_witness :
    (PreviewRoute.POST emptyRun
          (PreviewRoute.POST emptyRun c4Store ⟨some "p3", none, none⟩).store
          ⟨some "p3", none, none⟩).response =
        .previewNotFound ∧
      (ChatRoute.dbToolExecute idFormatter noExplain emptyRun 0 "n"
            (ChatRoute.dbToolExecute idFormatter noExplain emptyRun 0 "n"
              c4ChatStore c4ChatArgs).store
            c4ChatArgs).result =
        .error "Preview id not found or expired." :=
  ⟨(preview_one_time_use emptyRun c4Store ⟨some "p3", none, none⟩ "p3"
      idFormatter noExplain 0 "n" c4ChatStore c4ChatArgs "p4").1 (by rfl) (by rfl),
   (preview_one_time_use emptyRun c4Store ⟨some "p3", none, none⟩ "p3"
      idFormatter noExplain 0 "n" c4ChatStore c4ChatArgs "p4").2 (by rfl) (by rfl)
     (by rfl)⟩

/-- The stored preview of the prototype-chain-role scenario. -/
def c6Store : Store := [("p6", ⟨"SELECT * FROM sales", none, none, 0⟩)]

/-- **C6.** The supplied role string `toString` is not an entry of the policy
map, yet neither version of the access check returns the unknown-role Deny
for it: the JS property access `ROLE_TABLE_ALLOWLIST['toString']` yields the
truthy inherited `Object.prototype.toString`, `if (!allowed)` is skipped, and
`allowed.includes('*')` throws `TypeError` — the chat `db` tool raises past
the check and the execute-preview handler's outer catch turns it into the
500 internal error, not the distinct unknown-role Deny. A supplied empty
role string is even silently allowed by the `if (!userRole)` branch. Roles
absent from both the map and the prototype chain (such as `intern`) do get
the unknown-role Deny. -/
theorem checkRBAC_proto_role_throws :
    List.lookup "toString" ROLE_TABLE_ALLOWLIST = none ∧
      ChatRoute.checkRBACOnSql "SELECT * FROM sales" (some "toString") = .thrown ∧
      PreviewRoute.checkRBACOnSql "SELECT * FROM sales" (some "toString") = .thrown ∧
      (ChatRoute.dbToolExecute idFormatter noExplain emptyRun 0 "n" []
          ⟨"SELECT * FROM sales", false, none, some "toString", none⟩).result =
        .thrown ∧
      (PreviewRoute.POST emptyRun c6Store
          ⟨some "p6", none, some "toString"⟩).response = .internalError ∧
      ChatRoute.checkRBACOnSql "SELECT * FROM sales" (some "") =
        .result ⟨true, none⟩ ∧
      List.lookup "" ROLE_TABLE_ALLOWLIST = none ∧
      ChatRoute.checkRBACOnSql "SELECT * FROM sales" (some "intern") =
        .result ⟨false, some "Unknown role: intern"⟩ := by
  exact ⟨rfl, rfl, rfl, rfl, rfl, rfl, rfl, rfl⟩

/-! ### C8: idempotence of the PII masker

The key structural facts: a replacement pass emits, besides the original
characters at positions where the pattern failed, only placeholder blocks
that are guarded by `*` (for the email placeholder, its one leading captured
character equals the original character at the match position, and `*`
follows); `*` belongs to none of the three patterns' character classes, so a
match in the output is confined to a region that is also present in the
input, where the pass already established failure. -/

lemma getC_nil (i : Nat) : getC ([] : List Char) i = none := by
  simp [getC]

lemma getC_cons_succ (c : Char) (t : List Char) (k : Nat) :
    getC (c :: t) (k + 1) = getC t k := by
  simp [getC]

lemma getC_cons_zero (c : Char) (t : List Char) : getC (c :: t) 0 = some c := by
  simp [getC]

lemma getC_append_right (u v : List Char) (k : Nat) :
    getC (u ++ v) (u.length + k) = getC v k := by
  simp [getC, List.getElem?_append_right (by omega : u.length ≤ u.length + k)]

lemma getC_append_left (u v : List Char) (k : Nat) (h : k < u.length) :
    getC (u ++ v) k = getC u k := by
  simp [getC, List.getElem?_append, h]

lemma getC_of_prefix {u l : List Char} (h : u <+: l) {k : Nat} (hk : k < u.length) :
    getC l k = getC u k := by
  obtain ⟨t, rfl⟩ := h
  exact getC_append_left u t k hk

lemma getC_drop (s : List Char) (q k : Nat) : getC (s.drop q) k = getC s (q + k) := by
  simp [getC]

/-- Characterization of a maximal run of `p`-characters at the head of `l`:
`m` characters satisfying `p`, then the end of the list or a character
failing `p`. -/
def runSpec (p : Char → Bool) (l : List Char) (m : Nat) : Prop :=
  (∀ k, k < m → ∃ c, getC l k = some c ∧ p c = true) ∧
    (getC l m = none ∨ ∃ c, getC l m = some c ∧ p c = false)

lemma runLenAux_spec (p : Char → Bool) (l : List Char) :
    runSpec p l (runLenAux p l) := by
  induction l with
  | nil =>
    exact ⟨fun k hk => absurd hk (by simp [runLenAux]), Or.inl (getC_nil _)⟩
  | cons c t ih =>
    by_cases hc : p c
    · rw [show runLenAux p (c :: t) = runLenAux p t + 1 by simp [runLenAux, hc]]
      refine ⟨fun k hk => ?_, ?_⟩
      · match k with
        | 0 => exact ⟨c, getC_cons_zero c t, hc⟩
        | k + 1 => exact (getC_cons_succ c t k) ▸ ih.1 k (by omega)
      · rcases ih.2 with h | ⟨d, hd, hpd⟩
        · exact Or.inl ((getC_cons_succ c t _) ▸ h)
        · exact Or.inr ⟨d, (getC_cons_succ c t _) ▸ hd, hpd⟩
    · rw [show runLenAux p (c :: t) = 0 by simp [runLenAux, hc]]
      exact ⟨fun k hk => absurd hk (by omega),
        Or.inr ⟨c, getC_cons_zero c t, by simp [hc]⟩⟩

lemma runSpec_unique {p : Char → Bool} {l : List Char} {m m' : Nat}
    (h1 : runSpec p l m) (h2 : runSpec p l m') : m = m' := by
  by_contra hne
  rcases Nat.lt_or_ge m m' with hlt | hge
  · obtain ⟨c, hc, hpc⟩ := h2.1 m hlt
    rcases h1.2 with h | ⟨d, hd, hpd⟩
    · rw [h] at hc; exact Option.noConfusion hc
    · rw [hd] at hc
      obtain rfl := Option.some.inj hc
      rw [hpc] at hpd; exact Bool.noConfusion hpd
  · have hlt : m' < m := by omega
    obtain ⟨c, hc, hpc⟩ := h1.1 m' hlt
    rcases h2.2 with h | ⟨d, hd, hpd⟩
    · rw [h] at hc; exact Option.noConfusion hc
    · rw [hd] at hc
      obtain rfl := Option.some.inj hc
      rw [hpc] at hpd; exact Bool.noConfusion hpd

lemma runLenAux_eq_of_spec {p : Char → Bool} {l : List Char} {m : Nat}
    (h : runSpec p l m) : runLenAux p l = m :=
  runSpec_unique (runLenAux_spec p l) h

/-- The structure of a replace pass's output: either the untouched suffix of
the input, or a prefix of that suffix followed by a `*` (the start, or the
second character, of the first placeholder). -/
theorem replaceGo_prefix_structure
    (tryO : List Char → Nat → Option (List Char × Nat)) (cs : List Char)
    (Hrep : ∀ j rep len, tryO cs j = some (rep, len) →
      rep.head? = some '*' ∨ (rep.head? = getC cs j ∧ rep[1]? = some '*'))
    (i : Nat) :
    replaceGo tryO cs i = cs.drop i ∨
      ∃ u rest, u <+: cs.drop i ∧ replaceGo tryO cs i = u ++ '*' :: rest := by
  by_cases hlt : i < cs.length
  · cases htry : tryO cs i with
    | some rl =>
      obtain ⟨rep, len⟩ := rl
      have hout : replaceGo tryO cs i = rep ++ replaceGo tryO cs (i + max len 1) := by
        rw [replaceGo, dif_pos hlt]
        simp only [htry]
      rcases Hrep i rep len htry with hstar | ⟨hhead, hsec⟩
      · rcases rep with _ | ⟨r0, rtl⟩
        · simp at hstar
        · have hr0 : r0 = '*' := by simpa using hstar
          subst hr0
          exact Or.inr ⟨[], rtl ++ replaceGo tryO cs (i + max len 1),
            List.nil_prefix, by simpa using hout⟩
      · rcases rep with _ | ⟨c0, rep1⟩
        · simp at hsec
        · rcases rep1 with _ | ⟨r1, rtl⟩
          · simp at hsec
          · have hc0 : getC cs i = some c0 := by
              rw [← hhead]; rfl
            have hr1 : r1 = '*' := by simpa using hsec
            subst hr1
            refine Or.inr ⟨[c0], rtl ++ replaceGo tryO cs (i + max len 1), ?_, by
              simpa using hout⟩
            refine ⟨cs.drop (i + 1), ?_⟩
            rw [List.drop_eq_getElem_cons hlt]
            have hci : cs[i] = c0 := by
              have h2 := hc0
              simp [getC, List.getElem?_eq_getElem hlt] at h2
              exact h2
            simp [hci]
    | none =>
      have hout : replaceGo tryO cs i = cs.getD i ' ' :: replaceGo tryO cs (i + 1) := by
        rw [replaceGo, dif_pos hlt]
        simp only [htry]
      have hgetd : cs.getD i ' ' = cs[i] := List.getD_eq_getElem cs ' ' hlt
      rcases replaceGo_prefix_structure tryO cs Hrep (i + 1) with heq | ⟨u, rest, hpre, heq⟩
      · left
        rw [hout, heq, hgetd, List.drop_eq_getElem_cons hlt]
      · right
        refine ⟨cs[i] :: u, rest, ?_, by rw [hout, heq, hgetd]; rfl⟩
        obtain ⟨t, ht⟩ := hpre
        exact ⟨t, by rw [List.drop_eq_getElem_cons hlt, List.cons_append, ht]⟩
  · left
    rw [replaceGo, dif_neg hlt, List.drop_eq_nil_of_le (by omega)]
termination_by cs.length - i
decreasing_by all_goals omega

/-- The payload variant for a pass whose placeholder starts with `*`: the `*`
found after the agreeing prefix sits at a match position of the pass. -/
theorem replaceGo_prefix_payload
    (tryO : List Char → Nat → Option (List Char × Nat)) (cs : List Char)
    (Hrep : ∀ j rep len, tryO cs j = some (rep, len) → rep.head? = some '*')
    (i : Nat) :
    replaceGo tryO cs i = cs.drop i ∨
      ∃ u rest rep len, u <+: cs.drop i ∧
        replaceGo tryO cs i = u ++ '*' :: rest ∧
        tryO cs (i + u.length) = some (rep, len) := by
  by_cases hlt : i < cs.length
  · cases htry : tryO cs i with
    | some rl =>
      obtain ⟨rep, len⟩ := rl
      have hout : replaceGo tryO cs i = rep ++ replaceGo tryO cs (i + max len 1) := by
        rw [replaceGo, dif_pos hlt]
        simp only [htry]
      have hstar := Hrep i rep len htry
      rcases rep with _ | ⟨r0, rtl⟩
      · simp at hstar
      · have hr0 : r0 = '*' := by simpa using hstar
        subst hr0
        exact Or.inr ⟨[], rtl ++ replaceGo tryO cs (i + max len 1), '*' :: rtl, len,
          List.nil_prefix, by simpa using hout, by simpa using htry⟩
    | none =>
      have hout : replaceGo tryO cs i = cs.getD i ' ' :: replaceGo tryO cs (i + 1) := by
        rw [replaceGo, dif_pos hlt]
        simp only [htry]
      have hgetd : cs.getD i ' ' = cs[i] := List.getD_eq_getElem cs ' ' hlt
      rcases replaceGo_prefix_payload tryO cs Hrep (i + 1) with heq |
        ⟨u, rest, rep, len, hpre, heq, hmatch⟩
      · left
        rw [hout, heq, hgetd, List.drop_eq_getElem_cons hlt]
      · right
        refine ⟨cs[i] :: u, rest, rep, len, ?_, by rw [hout, heq, hgetd]; rfl, ?_⟩
        · obtain ⟨t, ht⟩ := hpre
          exact ⟨t, by rw [List.drop_eq_getElem_cons hlt, List.cons_append, ht]⟩
        · simpa [Nat.add_comm, Nat.add_assoc, Nat.add_left_comm] using hmatch
  · left
    rw [replaceGo, dif_neg hlt, List.drop_eq_nil_of_le (by omega)]
termination_by cs.length - i
decreasing_by all_goals omega

/-- The generic no-match-in-output theorem for a forward-reading matcher
`tryP0` (applied at the head of every suffix): if the pass's placeholders
reject `tryP0` at every interior offset, the pass's own failures imply
`tryP0` failures, and `tryP0` failures transfer across a `*`-blocker, then
`tryP0` fails at the head of every suffix of the output. -/
theorem nomatch_replaceGo {β : Type}
    (tryO : List Char → Nat → Option (List Char × Nat)) (cs : List Char)
    (tryP0 : List Char → Option β)
    (HPnil : tryP0 [] = none)
    (Hmono : ∀ j, tryO cs j = none → tryP0 (cs.drop j) = none)
    (Hblock : ∀ (l u rest : List Char), u <+: l → tryP0 l = none →
      tryP0 (u ++ '*' :: rest) = none)
    (Hrep01 : ∀ j rep len, tryO cs j = some (rep, len) →
      rep.head? = some '*' ∨ (rep.head? = getC cs j ∧ rep[1]? = some '*'))
    (Hinside : ∀ j rep len, tryO cs j = some (rep, len) →
      ∀ o, o < rep.length → ∀ tail, tryP0 (rep.drop o ++ tail) = none)
    (i : Nat) : ∀ q, tryP0 ((replaceGo tryO cs i).drop q) = none := by
  intro q
  by_cases hlt : i < cs.length
  · cases htry : tryO cs i with
    | some rl =>
      obtain ⟨rep, len⟩ := rl
      have hout : replaceGo tryO cs i = rep ++ replaceGo tryO cs (i + max len 1) := by
        rw [replaceGo, dif_pos hlt]
        simp only [htry]
      rw [hout]
      by_cases hq : q < rep.length
      · rw [List.drop_append_of_le_length (by omega)]
        exact Hinside i rep len htry q hq _
      · rw [show (rep ++ replaceGo tryO cs (i + max len 1)).drop q =
            (replaceGo tryO cs (i + max len 1)).drop (q - rep.length) by
          rw [List.drop_append_eq_append_drop]
          simp [List.drop_eq_nil_of_le (by omega : rep.length ≤ q)]]
        exact nomatch_replaceGo tryO cs tryP0 HPnil Hmono Hblock Hrep01 Hinside
          (i + max len 1) (q - rep.length)
    | none =>
      have hout : replaceGo tryO cs i = cs.getD i ' ' :: replaceGo tryO cs (i + 1) := by
        rw [replaceGo, dif_pos hlt]
        simp only [htry]
      cases q with
      | zero =>
        rw [List.drop_zero]
        rcases replaceGo_prefix_structure tryO cs Hrep01 i with heq | ⟨u, rest, hpre, heq⟩
        · rw [heq]
          exact Hmono i htry
        · rw [heq]
          exact Hblock (cs.drop i) u rest hpre (Hmono i htry)
      | succ q' =>
        rw [hout, List.drop_succ_cons]
        exact nomatch_replaceGo tryO cs tryP0 HPnil Hmono Hblock Hrep01 Hinside
          (i + 1) q'
  · rw [replaceGo, dif_neg hlt]
    simpa using HPnil
termination_by cs.length - i
decreasing_by all_goals omega

/-! #### Phone pattern: no match in the output -/

lemma digitsAt_true_iff (l : List Char) (o n : Nat) :
    digitsAt l o n = true ↔
      ∀ k, k < n → ∃ c, getC l (o + k) = some c ∧ c.isDigit = true := by
  simp only [digitsAt, List.all_eq_true, List.mem_range]
  constructor
  · intro h k hk
    have h2 := h k hk
    cases hg : getC l (o + k) with
    | none => rw [hg] at h2; simp at h2
    | some c => rw [hg] at h2; exact ⟨c, rfl, by simpa using h2⟩
  · intro h k hk
    obtain ⟨c, hc, hd⟩ := h k hk
    rw [hc]
    simpa using hd

lemma sepOkAt_one_iff (l : List Char) (o : Nat) :
    sepOkAt l o 1 = true ↔ ∃ c, getC l o = some c ∧ isPhoneSep c = true := by
  simp only [sepOkAt]
  constructor
  · intro h
    cases hg : getC l o with
    | none => rw [hg] at h; simp at h
    | some c => rw [hg] at h; exact ⟨c, rfl, by simpa using h⟩
  · intro h
    obtain ⟨c, hc, hd⟩ := h
    rw [hc]
    simpa using hd

lemma getC_star_point (u rest : List Char) :
    getC (u ++ '*' :: rest) u.length = some '*' := by
  have h := getC_append_right u ('*' :: rest) 0
  rw [Nat.add_zero] at h
  rw [h, getC_cons_zero]

lemma getC_ustar {u l : List Char} (rest : List Char) (hpre : u <+: l) {x : Nat}
    (hx : x < u.length) : getC (u ++ '*' :: rest) x = getC l x := by
  rw [getC_append_left _ _ _ hx, getC_of_prefix hpre hx]

lemma phoneShapes_n1 : ∀ sh ∈ phoneShapes, 1 ≤ sh.2.1 := by decide
lemma phoneShapes_s1 : ∀ sh ∈ phoneShapes, sh.2.2.1 ≤ 1 := by decide
lemma phoneShapes_n2 : ∀ sh ∈ phoneShapes, 1 ≤ sh.2.2.2.1 := by decide
lemma phoneShapes_s2 : ∀ sh ∈ phoneShapes, sh.2.2.2.2.1 ≤ 1 := by decide
lemma phoneShapes_n3 : ∀ sh ∈ phoneShapes, 1 ≤ sh.2.2.2.2.2.1 := by decide
lemma phoneShapes_s3 : ∀ sh ∈ phoneShapes, sh.2.2.2.2.2.2.1 ≤ 1 := by decide
lemma phoneShapes_n4 : ∀ sh ∈ phoneShapes, 1 ≤ sh.2.2.2.2.2.2.2 := by decide

/-- Unfolded form of `tryPhoneShape0` with the optional-plus width spelled
out, for proofs that split on the guard. -/
lemma tryPhoneShape0_def (l : List Char) (p : Bool) (n1 s1 n2 s2 n3 s3 n4 : Nat) :
    tryPhoneShape0 l (p, n1, s1, n2, s2, n3, s3, n4) =
      (if (!p || (getC l 0 == some '+')) &&
          digitsAt l (if p then 1 else 0) n1 &&
          sepOkAt l ((if p then 1 else 0) + n1) s1 &&
          digitsAt l ((if p then 1 else 0) + n1 + s1) n2 &&
          sepOkAt l ((if p then 1 else 0) + n1 + s1 + n2) s2 &&
          digitsAt l ((if p then 1 else 0) + n1 + s1 + n2 + s2) n3 &&
          sepOkAt l ((if p then 1 else 0) + n1 + s1 + n2 + s2 + n3) s3 &&
          digitsAt l ((if p then 1 else 0) + n1 + s1 + n2 + s2 + n3 + s3) n4 then
        some ((if p then 1 else 0) + n1 + s1 + n2 + s2 + n3 + s3 + n4)
      else none) := rfl

/-- `tryPhone0` fails whenever the head character is neither `+` nor a
digit (or the list is empty). -/
lemma tryPhone0_none_of_head (l : List Char)
    (h : ∀ c, getC l 0 = some c → c ≠ '+' ∧ c.isDigit = false) :
    tryPhone0 l = none := by
  rw [tryPhone0, List.findSome?_eq_none_iff]
  intro sh hsh
  obtain ⟨p, n1, s1, n2, s2, n3, s3, n4⟩ := sh
  have hn1 : 1 ≤ n1 := phoneShapes_n1 _ hsh
  rw [tryPhoneShape0_def]
  set pl := (if p = true then (1 : Nat) else 0) with hpl
  split
  · next hcond =>
    exfalso
    simp only [Bool.and_eq_true] at hcond
    obtain ⟨⟨⟨⟨⟨⟨⟨hplus, hd1⟩, _⟩, _⟩, _⟩, _⟩, _⟩, _⟩ := hcond
    cases hp : p
    · have hpl0 : pl = 0 := by rw [hpl, hp]; rfl
      rw [hpl0] at hd1
      obtain ⟨c, hc, hdig⟩ := (digitsAt_true_iff l 0 n1).mp hd1 0 (by omega)
      have h0 : getC l 0 = some c := by simpa using hc
      exact absurd hdig (by simp [(h c h0).2])
    · rw [hp] at hplus
      simp only [Bool.not_true, Bool.false_or] at hplus
      have : getC l 0 = some '+' := by simpa using hplus
      exact absurd rfl (h '+' this).1
  · rfl

/-- Phone failure transfers across a `*`-blocker: if the phone pattern fails
at the head of `l`, it also fails at the head of a prefix of `l` followed by
a `*` and anything. -/
lemma tryPhone0_blocker (l u rest : List Char) (hpre : u <+: l)
    (hnone : tryPhone0 l = none) : tryPhone0 (u ++ '*' :: rest) = none := by
  rw [tryPhone0, List.findSome?_eq_none_iff]
  intro sh hsh
  have hshl : tryPhoneShape0 l sh = none :=
    (List.findSome?_eq_none_iff.mp (by rwa [tryPhone0] at hnone)) sh hsh
  obtain ⟨p, n1, s1, n2, s2, n3, s3, n4⟩ := sh
  have hn1 : 1 ≤ n1 := phoneShapes_n1 _ hsh
  have hs1 : s1 ≤ 1 := phoneShapes_s1 _ hsh
  have hn2 : 1 ≤ n2 := phoneShapes_n2 _ hsh
  have hs2 : s2 ≤ 1 := phoneShapes_s2 _ hsh
  have hn3 : 1 ≤ n3 := phoneShapes_n3 _ hsh
  have hs3 : s3 ≤ 1 := phoneShapes_s3 _ hsh
  have hn4 : 1 ≤ n4 := phoneShapes_n4 _ hsh
  set d := u.length with hd
  set l' := u ++ '*' :: rest with hl'
  rw [tryPhoneShape0_def]
  set pl := (if p = true then (1 : Nat) else 0) with hpl
  split
  · next hcond =>
    exfalso
    simp only [Bool.and_eq_true] at hcond
    obtain ⟨⟨⟨⟨⟨⟨⟨hplus, hd1⟩, hsep1⟩, hd2⟩, hsep2⟩, hd3⟩, hsep3⟩, hd4⟩ := hcond
    have hplv : pl = 0 ∨ pl = 1 := by rw [hpl]; split <;> simp
    by_cases hLd : pl + n1 + s1 + n2 + s2 + n3 + s3 + n4 ≤ d
    · -- the whole span lies inside the agreeing prefix: transfer to `l`
      have hget : ∀ x, x < d → getC l' x = getC l x := fun x hx =>
        getC_ustar rest hpre hx
      have tdig : ∀ o n, o + n ≤ d → digitsAt l' o n = true → digitsAt l o n = true := by
        intro o n hon hdig
        rw [digitsAt_true_iff] at hdig ⊢
        intro k hk
        obtain ⟨c, hc, hcd⟩ := hdig k hk
        exact ⟨c, by rw [← hget (o + k) (by omega)]; exact hc, hcd⟩
      have tsep : ∀ o s, s ≤ 1 → o < d → sepOkAt l' o s = true → sepOkAt l o s = true := by
        intro o s hs ho hsep
        match s, hs with
        | 0, _ => simp [sepOkAt]
        | 1, _ =>
          rw [sepOkAt_one_iff] at hsep ⊢
          obtain ⟨c, hc, hcd⟩ := hsep
          exact ⟨c, by rw [← hget o ho]; exact hc, hcd⟩
      have tplus : (!p || (getC l 0 == some '+')) = true := by
        cases hp : p
        · simp
        · have hpl1 : pl = 1 := by rw [hpl, hp]; rfl
          rw [hp] at hplus
          simp only [Bool.not_true, Bool.false_or] at hplus ⊢
          rw [← hget 0 (by omega)]
          exact hplus
      have hl_some : tryPhoneShape0 l (p, n1, s1, n2, s2, n3, s3, n4) ≠ none := by
        rw [tryPhoneShape0_def, ← hpl]
        split
        · exact fun hcc => Option.noConfusion hcc
        · next hcf =>
          exfalso
          apply hcf
          simp only [Bool.and_eq_true]
          exact ⟨⟨⟨⟨⟨⟨⟨tplus, tdig _ _ (by omega) hd1⟩,
            tsep _ _ hs1 (by omega) hsep1⟩, tdig _ _ (by omega) hd2⟩,
            tsep _ _ hs2 (by omega) hsep2⟩, tdig _ _ (by omega) hd3⟩,
            tsep _ _ hs3 (by omega) hsep3⟩, tdig _ _ (by omega) hd4⟩
      exact hl_some hshl
    · -- the `*` at offset `d` is inside the span: some component reads it
      push_neg at hLd
      have hstar : getC l' d = some '*' := getC_star_point u rest
      have hsplit :
          (pl = 1 ∧ d = 0) ∨
          (pl ≤ d ∧ d < pl + n1) ∨
          (s1 = 1 ∧ d = pl + n1) ∨
          (pl + n1 + s1 ≤ d ∧ d < pl + n1 + s1 + n2) ∨
          (s2 = 1 ∧ d = pl + n1 + s1 + n2) ∨
          (pl + n1 + s1 + n2 + s2 ≤ d ∧ d < pl + n1 + s1 + n2 + s2 + n3) ∨
          (s3 = 1 ∧ d = pl + n1 + s1 + n2 + s2 + n3) ∨
          (pl + n1 + s1 + n2 + s2 + n3 + s3 ≤ d ∧
            d < pl + n1 + s1 + n2 + s2 + n3 + s3 + n4) := by
        omega
      have hdigcontra : ∀ o n, digitsAt l' o n = true → o ≤ d → d < o + n → False := by
        intro o n hdig ho hdn
        obtain ⟨c, hc, hcd⟩ := (digitsAt_true_iff l' o n).mp hdig (d - o) (by omega)
        rw [show o + (d - o) = d by omega, hstar] at hc
        obtain rfl := Option.some.inj hc
        simp at hcd
      have hsepcontra : ∀ o, sepOkAt l' o 1 = true → o = d → False := by
        intro o hsep ho
        obtain ⟨c, hc, hcd⟩ := (sepOkAt_one_iff l' o).mp hsep
        rw [ho, hstar] at hc
        obtain rfl := Option.some.inj hc
        simp [isPhoneSep, isJsSpace] at hcd
      rcases hsplit with ⟨hpl1, hd0⟩ | ⟨h1, h2⟩ | ⟨h1, h2⟩ | ⟨h1, h2⟩ | ⟨h1, h2⟩ |
        ⟨h1, h2⟩ | ⟨h1, h2⟩ | ⟨h1, h2⟩
      · have hp : p = true := by
          rcases Bool.eq_false_or_eq_true p with hp | hp
          · exact hp
          · rw [hpl, hp] at hpl1; simp at hpl1
        rw [hp] at hplus
        simp only [Bool.not_true, Bool.false_or] at hplus
        have hpp : getC l' 0 = some '+' := by simpa using hplus
        rw [hd0] at hstar
        rw [hstar] at hpp
        simp at hpp
      · exact hdigcontra pl n1 hd1 h1 h2
      · rw [h1] at hsep1; exact hsepcontra _ hsep1 h2.symm
      · exact hdigcontra _ n2 hd2 h1 h2
      · rw [h1] at hsep2; exact hsepcontra _ hsep2 h2.symm
      · exact hdigcontra _ n3 hd3 h1 h2
      · rw [h1] at hsep3; exact hsepcontra _ hsep3 h2.symm
      · exact hdigcontra _ n4 hd4 h1 h2
  · rfl

/-! #### Run-length helpers -/

lemma runLen_zero (p : Char → Bool) (l : List Char) : runLen p l 0 = runLenAux p l := by
  rw [runLen, List.drop_zero]

lemma runLenAux_cons_true {p : Char → Bool} {c : Char} (h : p c = true) (t : List Char) :
    runLenAux p (c :: t) = runLenAux p t + 1 := by
  simp [runLenAux, h]

lemma runLenAux_cons_false {p : Char → Bool} {c : Char} (h : p c = false) (t : List Char) :
    runLenAux p (c :: t) = 0 := by
  simp [runLenAux, h]

/-- A run that stops strictly inside `u` is unaffected by what follows `u`. -/
lemma runLenAux_append_of_stop {p : Char → Bool} (u t : List Char)
    (hstop : runLenAux p u < u.length) :
    runLenAux p (u ++ t) = runLenAux p u := by
  induction u with
  | nil => simp at hstop
  | cons c u' ih =>
    by_cases hc : p c
    · rw [List.cons_append, runLenAux_cons_true hc, runLenAux_cons_true hc]
      rw [runLenAux_cons_true hc, List.length_cons] at hstop
      rw [ih (by omega)]
    · have hcf : p c = false := by simpa using hc
      rw [List.cons_append, runLenAux_cons_false hcf, runLenAux_cons_false hcf]

lemma runLenAux_ge (p : Char → Bool) (xs : List Char) (n : Nat)
    (h : ∀ k, k < n → ∃ c, getC xs k = some c ∧ p c = true) :
    n ≤ runLenAux p xs := by
  by_contra hlt
  push_neg at hlt
  obtain ⟨c, hc, hpc⟩ := h (runLenAux p xs) hlt
  rcases (runLenAux_spec p xs).2 with h0 | ⟨e, he, hpe⟩
  · rw [h0] at hc
    exact Option.noConfusion hc
  · rw [he] at hc
    obtain rfl := Option.some.inj hc
    rw [hpc] at hpe
    exact Bool.noConfusion hpe

lemma runLen_ge (p : Char → Bool) (l : List Char) (o n : Nat)
    (h : ∀ k, k < n → ∃ c, getC l (o + k) = some c ∧ p c = true) :
    n ≤ runLen p l o := by
  rw [runLen]
  apply runLenAux_ge
  intro k hk
  obtain ⟨c, hc, hpc⟩ := h k hk
  exact ⟨c, by rw [getC_drop]; exact hc, hpc⟩

lemma runLen_pos_char (p : Char → Bool) (l : List Char) (o k : Nat)
    (h : k < runLen p l o) : ∃ c, getC l (o + k) = some c ∧ p c = true := by
  obtain ⟨c, hc, hpc⟩ := (runLenAux_spec p (l.drop o)).1 k (by rwa [runLen] at h)
  exact ⟨c, by rw [← getC_drop]; exact hc, hpc⟩

/-! #### Phone pattern: placeholder interiors -/

lemma tryPhone0_nil : tryPhone0 [] = none :=
  tryPhone0_none_of_head [] fun c hc => by rw [getC_nil] at hc; exact Option.noConfusion hc

lemma phoneRep_chars (o : Nat) (ho : o < 13) :
    ∃ c, getC ("***-PHONE-***".data) o = some c ∧ c ≠ '+' ∧ c.isDigit = false := by
  interval_cases o <;> exact ⟨_, rfl, by decide, by decide⟩

lemma cardRep_chars (o : Nat) (ho : o < 14) :
    ∃ c, getC ("****-CARD-****".data) o = some c ∧ c ≠ '+' ∧ c.isDigit = false := by
  interval_cases o <;> exact ⟨_, rfl, by decide, by decide⟩

/-- The phone matcher fails at the head of any interior suffix of a
placeholder whose characters are neither `+` nor digits. -/
lemma tryPhone0_none_at_rep (repD : List Char) (o : Nat) (tail : List Char)
    (h : ∃ c, getC repD o = some c ∧ c ≠ '+' ∧ c.isDigit = false)
    (ho : o < repD.length) :
    tryPhone0 (repD.drop o ++ tail) = none := by
  obtain ⟨c, hc, hplus, hdig⟩ := h
  apply tryPhone0_none_of_head
  intro c' hc'
  have hlen : 0 < (repD.drop o).length := by
    rw [List.length_drop]
    omega
  rw [getC_append_left _ _ _ hlen, getC_drop, Nat.add_zero, hc] at hc'
  obtain rfl := Option.some.inj hc'
  exact ⟨hplus, hdig⟩

lemma phoneTry_rep01 (cs : List Char) : ∀ j rep len, phoneTry cs j = some (rep, len) →
    rep.head? = some '*' ∨ (rep.head? = getC cs j ∧ rep[1]? = some '*') := by
  intro j rep len h
  left
  simp only [phoneTry, Option.map_eq_some'] at h
  obtain ⟨L, _, hL⟩ := h
  injection hL with h1 h2
  subst h1
  rfl

lemma cardTry_rep01 (cs : List Char) : ∀ j rep len, cardTry cs j = some (rep, len) →
    rep.head? = some '*' ∨ (rep.head? = getC cs j ∧ rep[1]? = some '*') := by
  intro j rep len h
  left
  simp only [cardTry, Option.map_eq_some'] at h
  obtain ⟨L, _, hL⟩ := h
  injection hL with h1 h2
  subst h1
  rfl

lemma phoneTry_inside_phone (cs : List Char) :
    ∀ j rep len, phoneTry cs j = some (rep, len) →
      ∀ o, o < rep.length → ∀ tail, tryPhone0 (rep.drop o ++ tail) = none := by
  intro j rep len h o ho tail
  simp only [phoneTry, Option.map_eq_some'] at h
  obtain ⟨L, _, hL⟩ := h
  injection hL with h1 h2
  subst h1
  exact tryPhone0_none_at_rep _ o tail (phoneRep_chars o (by simpa using ho)) ho

lemma cardTry_inside_phone (cs : List Char) :
    ∀ j rep len, cardTry cs j = some (rep, len) →
      ∀ o, o < rep.length → ∀ tail, tryPhone0 (rep.drop o ++ tail) = none := by
  intro j rep len h o ho tail
  simp only [cardTry, Option.map_eq_some'] at h
  obtain ⟨L, _, hL⟩ := h
  injection hL with h1 h2
  subst h1
  exact tryPhone0_none_at_rep _ o tail (cardRep_chars o (by simpa using ho)) ho

/-! #### Email pattern: failure lemmas -/

lemma tryEmail0_nil : tryEmail0 [] = none := by decide

/-- The email matcher fails whenever the character just past the local-part
run is not an `@` (including when the run is empty or reaches the end). -/
lemma tryEmail0_no_at (xs : List Char)
    (h : (getC xs (runLen isLocalChar xs 0) == some '@') = false) :
    tryEmail0 xs = none := by
  simp only [tryEmail0]
  split
  · rfl
  · split
    · next hc =>
      rw [h] at hc
      exact Bool.noConfusion hc
    · rfl

/-- The email matcher fails at the head of `u ++ tail` whenever the
local-part run stops strictly inside `u` at a non-`@` character. -/
lemma tryEmail0_none_concrete (u tail : List Char)
    (h1 : runLenAux isLocalChar u < u.length)
    (h2 : getC u (runLenAux isLocalChar u) ≠ some '@') :
    tryEmail0 (u ++ tail) = none := by
  apply tryEmail0_no_at
  have hrl : runLen isLocalChar (u ++ tail) 0 = runLenAux isLocalChar u := by
    rw [runLen_zero, runLenAux_append_of_stop u tail h1]
  rw [hrl, getC_append_left _ _ _ h1]
  exact beq_eq_false_iff_ne.mpr h2

/-- A successful email match starts with a local-part character, and returns
that character as the capture. -/
lemma tryEmail0_some_local {l : List Char} {c0 : Char} {n : Nat}
    (h : tryEmail0 l = some (c0, n)) :
    getC l 0 = some c0 ∧ isLocalChar c0 = true := by
  simp only [tryEmail0] at h
  split at h
  · exact Option.noConfusion h
  · next hL0 =>
    split at h
    · split at h
      · next r1 c heq1 heq2 =>
        injection h with hpair
        injection hpair with hcc hn
        subst hcc
        refine ⟨heq2, ?_⟩
        have hpos : 0 < runLenAux isLocalChar l := by
          rw [runLen_zero] at hL0
          omega
        obtain ⟨c', hc', hloc⟩ := (runLenAux_spec isLocalChar l).1 0 hpos
        rw [heq2] at hc'
        obtain rfl := Option.some.inj hc'
        exact hloc
      · exact Option.noConfusion h
    · exact Option.noConfusion h

/-- Email failure transfers across a `*`-blocker: if the email pattern fails
at the head of `l`, it also fails at the head of a prefix of `l` followed by
a `*` and anything. -/
lemma tryEmail0_blocker (l u rest : List Char) (hpre : u <+: l)
    (hnone : tryEmail0 l = none) : tryEmail0 (u ++ '*' :: rest) = none := by
  set d := u.length with hd
  set l' := u ++ '*' :: rest with hl'
  cases hE : tryEmail0 l' with
  | none => rfl
  | some pr =>
    exfalso
    obtain ⟨c0, n⟩ := pr
    -- facts about the successful match on l'
    have hstar : getC l' d = some '*' := getC_star_point u rest
    have hget : ∀ x, x < d → getC l' x = getC l x := fun x hx =>
      getC_ustar rest hpre hx
    simp only [tryEmail0] at hE
    split at hE
    · exact Option.noConfusion hE
    · next hL0 =>
      split at hE
      · next hAt =>
        split at hE
        · next r1 c heq1 heq2 =>
          set L := runLenAux isLocalChar l' with hLdef
          have hL0' : 0 < L := by
            rw [runLen_zero] at hL0
            omega
          have hAt' : getC l' (L) = some '@' := by
            rw [runLen_zero] at hAt
            simpa using hAt
          -- the local run stops at or before the star
          have hLd : L ≤ d := by
            by_contra hlt
            push_neg at hlt
            obtain ⟨c', hc', hloc⟩ := (runLenAux_spec isLocalChar l').1 d hlt
            rw [hstar] at hc'
            obtain rfl := Option.some.inj hc'
            exact absurd hloc (by decide)
          have hLne : L ≠ d := fun hh => by
            rw [hh, hstar] at hAt'
            exact absurd (Option.some.inj hAt') (by decide)
          have hLltd : L < d := by omega
          -- the same local run exists on l
          have hLl : runLenAux isLocalChar l = L := by
            apply runLenAux_eq_of_spec
            constructor
            · intro k hk
              obtain ⟨c', hc', hloc⟩ := (runLenAux_spec isLocalChar l').1 k hk
              exact ⟨c', by rw [← hget k (by omega)]; exact hc', hloc⟩
            · right
              exact ⟨'@', by rw [← hget L hLltd]; exact hAt', by decide⟩
          have hLl0 : runLen isLocalChar l 0 = L := by rw [runLen_zero, hLl]
          -- the @ and the capture transfer to l
          have hAtl : (getC l L == some '@') = true := by
            rw [← hget L hLltd, hAt']
            rfl
          have hc0l : getC l 0 = some c := by
            rw [← hget 0 (by omega)]
            exact heq2
          -- the domain run of l' stays before the star and transfers to l
          have hRd : L + 1 + runLen isDomainChar l' (L + 1) ≤ d := by
            by_contra hlt
            push_neg at hlt
            have hj : L + 1 ≤ d := by omega
            obtain ⟨c', hc', hdom⟩ :=
              runLen_pos_char isDomainChar l' (L + 1) (d - (L + 1)) (by omega)
            rw [show L + 1 + (d - (L + 1)) = d by omega, hstar] at hc'
            obtain rfl := Option.some.inj hc'
            exact absurd hdom (by decide)
          have hRl : runLen isDomainChar l' (L + 1) ≤ runLen isDomainChar l (L + 1) := by
            apply runLen_ge
            intro k hk
            obtain ⟨c', hc', hdom⟩ := runLen_pos_char isDomainChar l' (L + 1) k hk
            exact ⟨c', by rw [← hget (L + 1 + k) (by omega)]; exact hc', hdom⟩
          -- the eligible dot found on l'
          have hr1p := List.find?_some heq1
          have hr1mem : r1 ∈ (List.range (runLen isDomainChar l'
              (runLen isLocalChar l' 0 + 1))).reverse := List.mem_of_find?_eq_some heq1
          rw [List.mem_reverse, List.mem_range] at hr1mem
          have hr1R : r1 < runLen isDomainChar l' (L + 1) := by
            rw [runLen_zero, ← hLdef] at hr1mem
            exact hr1mem
          simp only [Bool.and_eq_true, decide_eq_true_eq, beq_iff_eq] at hr1p
          obtain ⟨⟨hr11, hdot⟩, halpha⟩ := hr1p
          rw [runLen_zero, ← hLdef] at hdot halpha
          -- the dot position is before the star
          have hdotlt : L + 1 + r1 < d := by omega
          have hdotl : getC l (L + 1 + r1) = some '.' := by
            rw [← hget _ hdotlt]
            exact hdot
          -- the two leading alpha characters are before the star
          have hp1 : L + 1 + r1 + 1 ≤ d := by omega
          obtain ⟨a0, ha0, ha0al⟩ :=
            runLen_pos_char Char.isAlpha l' (L + 1 + r1 + 1) 0 (by omega)
          obtain ⟨a1, ha1, ha1al⟩ :=
            runLen_pos_char Char.isAlpha l' (L + 1 + r1 + 1) 1 (by omega)
          rw [Nat.add_zero] at ha0
          have hp1lt : L + 1 + r1 + 1 < d := by
            rcases Nat.lt_or_ge (L + 1 + r1 + 1) d with hh | hh
            · exact hh
            · exfalso
              have : L + 1 + r1 + 1 = d := by omega
              rw [this, hstar] at ha0
              obtain rfl := Option.some.inj ha0
              exact absurd ha0al (by decide)
          have hp2lt : L + 1 + r1 + 1 + 1 < d := by
            rcases Nat.lt_or_ge (L + 1 + r1 + 1 + 1) d with hh | hh
            · exact hh
            · exfalso
              have : L + 1 + r1 + 1 + 1 = d := by omega
              rw [this, hstar] at ha1
              obtain rfl := Option.some.inj ha1
              exact absurd ha1al (by decide)
          have halphal : 2 ≤ runLen Char.isAlpha l (L + 1 + r1 + 1) := by
            apply runLen_ge
            intro k hk
            match k, hk with
            | 0, _ =>
              exact ⟨a0, by rw [Nat.add_zero, ← hget _ hp1lt]; exact ha0, ha0al⟩
            | 1, _ =>
              exact ⟨a1, by rw [← hget _ hp2lt]; exact ha1, ha1al⟩
          -- so l has an eligible dot too, contradicting its failure
          have hfind : (((List.range (runLen isDomainChar l (L + 1))).reverse.find?
              fun r2 => decide (1 ≤ r2) && (getC l (L + 1 + r2) == some '.') &&
                decide (2 ≤ runLen Char.isAlpha l (L + 1 + r2 + 1))).isSome) = true := by
            rw [List.find?_isSome]
            refine ⟨r1, ?_, ?_⟩
            · rw [List.mem_reverse, List.mem_range]
              omega
            · simp only [Bool.and_eq_true, decide_eq_true_eq, beq_iff_eq]
              exact ⟨⟨hr11, hdotl⟩, halphal⟩
          obtain ⟨rl, hrl⟩ := Option.isSome_iff_exists.mp hfind
          have : tryEmail0 l ≠ none := by
            simp only [tryEmail0]
            rw [hLl0, if_neg (by omega), if_pos hAtl, hrl, hc0l]
            simp
          exact this hnone
        · exact Option.noConfusion hE
      · exact Option.noConfusion hE

/-- The email matcher fails when the local-part run at the head is empty. -/
lemma tryEmail0_L0 (xs : List Char) (h : runLen isLocalChar xs 0 = 0) :
    tryEmail0 xs = none := by
  simp only [tryEmail0]
  rw [if_pos h]

lemma emailTry_rep01 (cs : List Char) : ∀ j rep len, emailTry cs j = some (rep, len) →
    rep.head? = some '*' ∨ (rep.head? = getC cs j ∧ rep[1]? = some '*') := by
  intro j rep len h
  right
  simp only [emailTry, tryEmailAt, Option.map_eq_some'] at h
  obtain ⟨⟨c0, L⟩, hsome, hL⟩ := h
  injection hL with h1 h2
  subst h1
  have hc0 := (tryEmail0_some_local hsome).1
  rw [getC_drop, Nat.add_zero] at hc0
  constructor
  · rw [hc0]
    rfl
  · rfl

lemma emailTry_inside_email (cs : List Char) :
    ∀ j rep len, emailTry cs j = some (rep, len) →
      ∀ o, o < rep.length → ∀ tail, tryEmail0 (rep.drop o ++ tail) = none := by
  intro j rep len h o ho tail
  simp only [emailTry, tryEmailAt, Option.map_eq_some'] at h
  obtain ⟨⟨c0, L⟩, hsome, hL⟩ := h
  injection hL with h1 h2
  subst h1
  have hc0 := (tryEmail0_some_local hsome).2
  have ho8 : o < 8 := by simpa using ho
  interval_cases o
  · have hrun : runLenAux isLocalChar [c0, '*'] = 1 := by
      rw [runLenAux_cons_true hc0,
        runLenAux_cons_false (show isLocalChar '*' = false by decide)]
    have hgc : getC [c0, '*'] 1 = some '*' := by simp [getC]
    refine tryEmail0_none_concrete [c0, '*'] _ ?_ ?_
    · rw [hrun]; simp
    · rw [hrun, hgc]; decide
  all_goals
    (apply tryEmail0_L0; rw [runLen_zero]; exact runLenAux_cons_false (by decide) _)

lemma phoneTry_inside_email (cs : List Char) :
    ∀ j rep len, phoneTry cs j = some (rep, len) →
      ∀ o, o < rep.length → ∀ tail, tryEmail0 (rep.drop o ++ tail) = none := by
  intro j rep len h o ho tail
  simp only [phoneTry, Option.map_eq_some'] at h
  obtain ⟨L, _, hL⟩ := h
  injection hL with h1 h2
  subst h1
  have ho13 : o < 13 := by simpa using ho
  interval_cases o <;> exact tryEmail0_none_concrete _ tail (by decide) (by decide)

lemma cardTry_inside_email (cs : List Char) :
    ∀ j rep len, cardTry cs j = some (rep, len) →
      ∀ o, o < rep.length → ∀ tail, tryEmail0 (rep.drop o ++ tail) = none := by
  intro j rep len h o ho tail
  simp only [cardTry, Option.map_eq_some'] at h
  obtain ⟨L, _, hL⟩ := h
  injection hL with h1 h2
  subst h1
  have ho14 : o < 14 := by simpa using ho
  interval_cases o <;> exact tryEmail0_none_concrete _ tail (by decide) (by decide)

/-! #### No-match facts carried through the three passes -/

lemma email_nomatch_self (cs : List Char) (q : Nat) :
    tryEmail0 ((replaceScan emailTry cs).drop q) = none := by
  simp only [replaceScan]
  refine nomatch_replaceGo emailTry cs tryEmail0 tryEmail0_nil ?_ tryEmail0_blocker
    (emailTry_rep01 cs) (emailTry_inside_email cs) 0 q
  intro j hj
  simp only [emailTry, tryEmailAt, Option.map_eq_none'] at hj
  exact hj

lemma email_nomatch_after_phone (cs : List Char)
    (hall : ∀ q, tryEmail0 (cs.drop q) = none) (q : Nat) :
    tryEmail0 ((replaceScan phoneTry cs).drop q) = none := by
  simp only [replaceScan]
  exact nomatch_replaceGo phoneTry cs tryEmail0 tryEmail0_nil (fun j _ => hall j)
    tryEmail0_blocker (phoneTry_rep01 cs) (phoneTry_inside_email cs) 0 q

lemma email_nomatch_after_card (cs : List Char)
    (hall : ∀ q, tryEmail0 (cs.drop q) = none) (q : Nat) :
    tryEmail0 ((replaceScan cardTry cs).drop q) = none := by
  simp only [replaceScan]
  exact nomatch_replaceGo cardTry cs tryEmail0 tryEmail0_nil (fun j _ => hall j)
    tryEmail0_blocker (cardTry_rep01 cs) (cardTry_inside_email cs) 0 q

lemma phone_nomatch_self (cs : List Char) (q : Nat) :
    tryPhone0 ((replaceScan phoneTry cs).drop q) = none := by
  simp only [replaceScan]
  refine nomatch_replaceGo phoneTry cs tryPhone0 tryPhone0_nil ?_ tryPhone0_blocker
    (phoneTry_rep01 cs) (phoneTry_inside_phone cs) 0 q
  intro j hj
  simp only [phoneTry, tryPhoneAt, Option.map_eq_none'] at hj
  exact hj

lemma phone_nomatch_after_card (cs : List Char)
    (hall : ∀ q, tryPhone0 (cs.drop q) = none) (q : Nat) :
    tryPhone0 ((replaceScan cardTry cs).drop q) = none := by
  simp only [replaceScan]
  exact nomatch_replaceGo cardTry cs tryPhone0 tryPhone0_nil (fun j _ => hall j)
    tryPhone0_blocker (cardTry_rep01 cs) (cardTry_inside_phone cs) 0 q

/-- A replace pass with no match anywhere is the identity (from `i` on). -/
lemma replaceGo_id (tryO : List Char → Nat → Option (List Char × Nat)) (cs : List Char)
    (h : ∀ j, tryO cs j = none) (i : Nat) :
    replaceGo tryO cs i = cs.drop i := by
  by_cases hlt : i < cs.length
  · rw [replaceGo, dif_pos hlt]
    simp only [h i]
    rw [replaceGo_id tryO cs h (i + 1), List.getD_eq_getElem cs ' ' hlt,
      ← List.drop_eq_getElem_cons hlt]
  · rw [replaceGo, dif_neg hlt, List.drop_eq_nil_of_le (by omega)]
termination_by cs.length - i
decreasing_by all_goals omega

/-- A replace pass with no match anywhere is the identity. -/
lemma replaceScan_id (tryO : List Char → Nat → Option (List Char × Nat)) (cs : List Char)
    (h : ∀ j, tryO cs j = none) : replaceScan tryO cs = cs := by
  rw [replaceScan, replaceGo_id tryO cs h 0, List.drop_zero]

/-! #### Card pattern: success shape, transfer and blocker -/

/-- One-step unfolding of `cardGo`. -/
lemma cardGo_succ (cs : List Char) (fuel k pos : Nat) :
    cardGo cs (fuel + 1) k pos =
      match (if k < 16 then
        match getC cs pos with
        | some c => if c.isDigit then cardGo cs fuel (k + 1) (pos + 1) else none
        | none => none
      else none) with
      | some e => some e
      | none =>
        if 13 ≤ k && atWordBoundary cs pos then some pos
        else
          match getC cs pos with
          | some c => if isCardSep c then cardGo cs fuel k (pos + 1) else none
          | none => none := rfl

lemma isCardSep_not_digit {c : Char} (h : isCardSep c = true) : c.isDigit = false := by
  simp only [isCardSep, Bool.or_eq_true, beq_iff_eq] at h
  rcases h with rfl | rfl <;> decide

lemma isCardSep_not_word {c : Char} (h : isCardSep c = true) : isWordChar c = false := by
  simp only [isCardSep, Bool.or_eq_true, beq_iff_eq] at h
  rcases h with rfl | rfl <;> decide

lemma isWordChar_of_digit {c : Char} (h : c.isDigit = true) : isWordChar c = true := by
  simp [isWordChar, Char.isAlphanum, h]

/-- A successful `cardGo` ends at or after its current position. -/
lemma cardGo_pos_le {cs : List Char} : ∀ {fuel k pos e : Nat},
    cardGo cs fuel k pos = some e → pos ≤ e := by
  intro fuel
  induction fuel with
  | zero => intro k pos e h; exact Option.noConfusion h
  | succ f ih =>
    intro k pos e h
    rw [cardGo_succ] at h
    split at h
    · next e1 heq =>
      obtain rfl : e1 = e := Option.some.inj h
      split at heq
      · split at heq
        · next c hg =>
          split at heq
          · have := ih heq
            omega
          · exact Option.noConfusion heq
        · exact Option.noConfusion heq
      · exact Option.noConfusion heq
    · split at h
      · obtain rfl : pos = e := Option.some.inj h
        omega
      · split at h
        · next c hg =>
          split at h
          · have := ih h
            omega
          · exact Option.noConfusion h
        · exact Option.noConfusion h

/-- Every character strictly inside a successful `cardGo` span is a digit or
a card separator. -/
lemma cardGo_span {cs : List Char} : ∀ {fuel k pos e : Nat},
    cardGo cs fuel k pos = some e →
    ∀ x, pos ≤ x → x < e → ∃ c, getC cs x = some c ∧ (c.isDigit || isCardSep c) = true := by
  intro fuel
  induction fuel with
  | zero => intro k pos e h; exact Option.noConfusion h
  | succ f ih =>
    intro k pos e h x hpx hxe
    rw [cardGo_succ] at h
    split at h
    · next e1 heq =>
      obtain rfl : e1 = e := Option.some.inj h
      split at heq
      · split at heq
        · next c hg =>
          split at heq
          · next hdig =>
            rcases Nat.eq_or_lt_of_le hpx with rfl | hlt
            · exact ⟨c, hg, by simp [hdig]⟩
            · exact ih heq x (by omega) hxe
          · exact Option.noConfusion heq
        · exact Option.noConfusion heq
      · exact Option.noConfusion heq
    · split at h
      · obtain rfl : pos = e := Option.some.inj h
        omega
      · split at h
        · next c hg =>
          split at h
          · next hsep =>
            rcases Nat.eq_or_lt_of_le hpx with rfl | hlt
            · exact ⟨c, hg, by simp [hsep]⟩
            · exact ih h x (by omega) hxe
          · exact Option.noConfusion h
        · exact Option.noConfusion h

lemma getC_none_of_ge (cs : List Char) (x : Nat) (h : cs.length ≤ x) : getC cs x = none := by
  simp [getC, List.getElem?_eq_none h]

lemma atWordBoundary_char (cs : List Char) (j : Nat) {b : Char}
    (hb : getC cs j = some b) :
    atWordBoundary cs (j + 1) =
      (isWordChar b != ((getC cs (j + 1)).map isWordChar).getD false) := by
  cases hg2 : getC cs (j + 1) <;> simp [atWordBoundary, hb, hg2]

lemma atWordBoundary_congr {l' l : List Char} (pos : Nat)
    (hprev : pos = 0 ∨ getC l' (pos - 1) = getC l (pos - 1))
    (hcur : getC l' pos = getC l pos) :
    atWordBoundary l' pos = atWordBoundary l pos := by
  cases pos with
  | zero => simp [atWordBoundary, hcur]
  | succ j =>
    rcases hprev with h0 | hp
    · exact absurd h0 (by omega)
    · have hp' : getC l' j = getC l j := hp
      cases hgp : getC l j <;> cases hgc : getC l (j + 1) <;>
        simp [atWordBoundary, hp', hcur, hgp, hgc]

/-- A successful `cardGo` whose entry invariant holds (the character before
the position is a digit whenever 13 units are already complete) ends just
after a digit, at a word boundary: the character at the match end, if any,
is not a word character. -/
lemma cardGo_end {cs : List Char} : ∀ {fuel k pos e : Nat},
    cardGo cs fuel k pos = some e → 1 ≤ pos →
    (13 ≤ k → ∃ c, getC cs (pos - 1) = some c ∧ c.isDigit = true) →
    (∃ c, getC cs (e - 1) = some c ∧ c.isDigit = true) ∧
      ((getC cs e).map isWordChar).getD false = false := by
  intro fuel
  induction fuel with
  | zero => intro k pos e h _ _; exact Option.noConfusion h
  | succ f ih =>
    intro k pos e h hpos hprev
    rw [cardGo_succ] at h
    split at h
    · next e1 heq =>
      obtain rfl : e1 = e := Option.some.inj h
      split at heq
      · split at heq
        · next c hg =>
          split at heq
          · next hdig =>
            exact ih heq (by omega) fun _ => ⟨c, by simpa using hg, hdig⟩
          · exact Option.noConfusion heq
        · exact Option.noConfusion heq
      · exact Option.noConfusion heq
    · split at h
      · next hcond =>
        obtain rfl : pos = e := Option.some.inj h
        simp only [Bool.and_eq_true, decide_eq_true_eq] at hcond
        obtain ⟨hk13, hb⟩ := hcond
        obtain ⟨c, hpc, hpd⟩ := hprev hk13
        obtain ⟨j, rfl⟩ : ∃ j, pos = j + 1 := ⟨pos - 1, by omega⟩
        have hpc' : getC cs j = some c := by simpa using hpc
        rw [atWordBoundary_char cs j hpc'] at hb
        rw [isWordChar_of_digit hpd] at hb
        refine ⟨⟨c, hpc, hpd⟩, ?_⟩
        cases hcw : ((getC cs (j + 1)).map isWordChar).getD false
        · rfl
        · rw [hcw] at hb
          exact absurd hb (by decide)
      · next hcond =>
        split at h
        · next c hg =>
          split at h
          · next hsep =>
            refine ih h (by omega) fun hk13 => ?_
            exfalso
            apply hcond
            obtain ⟨b, hpb, hbd⟩ := hprev hk13
            obtain ⟨j, rfl⟩ : ∃ j, pos = j + 1 := ⟨pos - 1, by omega⟩
            have hpb' : getC cs j = some b := by simpa using hpb
            rw [Bool.and_eq_true, decide_eq_true_eq]
            refine ⟨hk13, ?_⟩
            rw [atWordBoundary_char cs j hpb', isWordChar_of_digit hbd, hg]
            simp [isCardSep_not_word hsep]
          · exact Option.noConfusion h
        · exact Option.noConfusion h

/-- Far past the end of the list, `cardGo` always fails. -/
lemma cardGo_oob (cs : List Char) : ∀ fuel k pos, cs.length + 1 ≤ pos →
    cardGo cs fuel k pos = none := by
  intro fuel
  induction fuel with
  | zero => intro k pos h; rfl
  | succ f ih =>
    intro k pos h
    obtain ⟨j, rfl⟩ : ∃ j, pos = j + 1 := ⟨pos - 1, by omega⟩
    have hg : getC cs (j + 1) = none := getC_none_of_ge _ _ (by omega)
    have hg' : getC cs j = none := getC_none_of_ge _ _ (by omega)
    have hb : atWordBoundary cs (j + 1) = false := by
      simp [atWordBoundary, hg, hg']
    rw [cardGo_succ, hg, hb]
    simp

/-- With enough fuel the result of `cardGo` does not depend on the fuel. -/
lemma cardGo_fuel_stable (cs : List Char) : ∀ fuel₁ fuel₂ k pos,
    cs.length + 1 ≤ fuel₁ + pos → cs.length + 1 ≤ fuel₂ + pos →
    cardGo cs fuel₁ k pos = cardGo cs fuel₂ k pos := by
  intro fuel₁
  induction fuel₁ with
  | zero =>
    intro fuel₂ k pos h₁ h₂
    rw [show cardGo cs 0 k pos = none from rfl, cardGo_oob cs fuel₂ k pos (by omega)]
  | succ f₁ ih =>
    intro fuel₂ k pos h₁ h₂
    cases fuel₂ with
    | zero =>
      rw [show cardGo cs 0 k pos = none from rfl, cardGo_oob cs (f₁ + 1) k pos (by omega)]
    | succ f₂ =>
      rw [cardGo_succ, cardGo_succ,
        ih f₂ (k + 1) (pos + 1) (by omega) (by omega),
        ih f₂ k (pos + 1) (by omega) (by omega)]

/-- If `cardGo` succeeds on `l'` and `l` agrees with `l'` on every position
up to the match end, then `cardGo` also succeeds on `l` (with canonical
fuel), though possibly with a different end. -/
lemma cardGo_transfer {l' l : List Char} {e' : Nat}
    (hagree : ∀ x, x ≤ e' → getC l' x = getC l x) :
    ∀ {fuel k pos}, cardGo l' fuel k pos = some e' → 1 ≤ pos →
      cardGo l (l.length + 1) k pos ≠ none := by
  intro fuel
  induction fuel with
  | zero => intro k pos h _; exact Option.noConfusion h
  | succ f ih =>
    intro k pos h hpos
    rw [cardGo_succ] at h
    rw [cardGo_succ]
    split at h
    · next e1 heq =>
      obtain rfl : e1 = e' := Option.some.inj h
      split at heq
      · next hk16 =>
        split at heq
        · next c hg =>
          split at heq
          · next hdig =>
            have hple := cardGo_pos_le heq
            have hgl : getC l pos = some c := by
              rw [← hagree pos (by omega)]
              exact hg
            obtain ⟨e2, he2⟩ := Option.ne_none_iff_exists'.mp (ih heq (by omega))
            have hstab : cardGo l l.length (k + 1) (pos + 1) = some e2 := by
              rw [cardGo_fuel_stable l l.length (l.length + 1) (k + 1) (pos + 1)
                (by omega) (by omega)]
              exact he2
            have hred : (if k < 16 then
                match getC l pos with
                | some c => if c.isDigit then cardGo l l.length (k + 1) (pos + 1) else none
                | none => none
              else none) = some e2 := by
              rw [if_pos hk16, hgl]
              show (if c.isDigit then cardGo l l.length (k + 1) (pos + 1) else none) = some e2
              rw [if_pos hdig]
              exact hstab
            rw [hred]
            simp
          · exact Option.noConfusion heq
        · exact Option.noConfusion heq
      · exact Option.noConfusion heq
    · split at h
      · next hcond =>
        obtain rfl : pos = e' := Option.some.inj h
        simp only [Bool.and_eq_true, decide_eq_true_eq] at hcond
        obtain ⟨hk13, hb⟩ := hcond
        have hbl : atWordBoundary l pos = true := by
          rw [← atWordBoundary_congr pos
            (Or.inr (hagree (pos - 1) (by omega))) (hagree pos (by omega))]
          exact hb
        cases hS : (if k < 16 then
            match getC l pos with
            | some c => if c.isDigit then cardGo l l.length (k + 1) (pos + 1) else none
            | none => none
          else none) with
        | some e2 =>
          simp
        | none =>
          show (if 13 ≤ k && atWordBoundary l pos then some pos else
            match getC l pos with
            | some c => if isCardSep c then cardGo l l.length k (pos + 1) else none
            | none => none) ≠ none
          rw [if_pos (by simp [hk13, hbl])]
          simp
      · next hcond2 =>
        split at h
        · next c hg =>
          split at h
          · next hsep =>
            have hple := cardGo_pos_le h
            have hgl : getC l pos = some c := by
              rw [← hagree pos (by omega)]
              exact hg
            obtain ⟨e2, he2⟩ := Option.ne_none_iff_exists'.mp (ih h (by omega))
            have hstab : cardGo l l.length k (pos + 1) = some e2 := by
              rw [cardGo_fuel_stable l l.length (l.length + 1) k (pos + 1)
                (by omega) (by omega)]
              exact he2
            have hS : (if k < 16 then
                match getC l pos with
                | some c => if c.isDigit then cardGo l l.length (k + 1) (pos + 1) else none
                | none => none
              else none) = none := by
              split
              · rw [hgl]
                show (if c.isDigit then cardGo l l.length (k + 1) (pos + 1) else none) = none
                rw [if_neg (by simp [isCardSep_not_digit hsep])]
              · rfl
            rw [hS]
            show (if 13 ≤ k && atWordBoundary l pos then some pos else
              match getC l pos with
              | some c => if isCardSep c then cardGo l l.length k (pos + 1) else none
              | none => none) ≠ none
            have hbcongr : atWordBoundary l' pos = atWordBoundary l pos :=
              atWordBoundary_congr pos
                (Or.inr (hagree (pos - 1) (by omega))) (hagree pos (by omega))
            rw [if_neg (by rw [← hbcongr]; exact hcond2), hgl]
            show (if isCardSep c then cardGo l l.length k (pos + 1) else none) ≠ none
            rw [if_pos hsep, hstab]
            simp
          · exact Option.noConfusion h
        · exact Option.noConfusion h

lemma tryCard0_nil (pc : Option Char) : tryCard0 pc [] = none := by
  simp only [tryCard0, getC_nil]
  split <;> rfl

lemma tryCard0_none_of_head (pc : Option Char) (l : List Char)
    (h : ∀ c, getC l 0 = some c → c.isDigit = false) : tryCard0 pc l = none := by
  simp only [tryCard0]
  split
  · cases hg : getC l 0 with
    | none => rfl
    | some c =>
      show (if c.isDigit then cardGo l (l.length + 1) 1 1 else none) = none
      rw [if_neg (by simp [h c hg])]
  · rfl

/-- The three components of a successful card match: a digit at the head, a
non-word (or absent) previous character, and the `cardGo` run. -/
lemma tryCard0_some_facts {pc : Option Char} {l : List Char} {e : Nat}
    (h : tryCard0 pc l = some e) :
    (∃ c, getC l 0 = some c ∧ c.isDigit = true) ∧
      (pc.map isWordChar).getD false = false ∧
      cardGo l (l.length + 1) 1 1 = some e := by
  simp only [tryCard0] at h
  split at h
  · next hne =>
    split at h
    · next c hg =>
      split at h
      · next hdig =>
        refine ⟨⟨c, hg, hdig⟩, ?_, h⟩
        have hne' : ((pc.map isWordChar).getD false != true) = true := by
          rw [hg] at hne
          simpa [isWordChar_of_digit hdig] using hne
        cases hpw : (pc.map isWordChar).getD false
        · rfl
        · rw [hpw] at hne'
          exact absurd hne' (by decide)
      · exact Option.noConfusion h
    · exact Option.noConfusion h
  · exact Option.noConfusion h

lemma tryCard0_end {pc : Option Char} {l : List Char} {e : Nat}
    (h : tryCard0 pc l = some e) :
    1 ≤ e ∧ (∃ c, getC l (e - 1) = some c ∧ c.isDigit = true) ∧
      ((getC l e).map isWordChar).getD false = false := by
  obtain ⟨hhead, hpw, hgo⟩ := tryCard0_some_facts h
  have h1e : 1 ≤ e := cardGo_pos_le hgo
  have hend := cardGo_end hgo (by omega) (fun h13 => absurd h13 (by omega))
  exact ⟨h1e, hend.1, hend.2⟩

lemma tryCard0_span {pc : Option Char} {l : List Char} {e : Nat}
    (h : tryCard0 pc l = some e) :
    ∀ x, x < e → ∃ c, getC l x = some c ∧ (c.isDigit || isCardSep c) = true := by
  obtain ⟨⟨c0, hg0, hd0⟩, hpw, hgo⟩ := tryCard0_some_facts h
  intro x hx
  cases x with
  | zero => exact ⟨c0, hg0, by simp [hd0]⟩
  | succ x' => exact cardGo_span hgo (x' + 1) (by omega) hx

/-- Card failure transfers across a `*`-blocker placed at the start of a
later card match (so the character in `l` just before the `*` position is
not a word character). -/
lemma tryCard0_blocker (pc : Option Char) (l u rest : List Char) (hpre : u <+: l)
    (hnone : tryCard0 pc l = none)
    (hd_prev : u = [] ∨ ((getC l (u.length - 1)).map isWordChar).getD false = false) :
    tryCard0 pc (u ++ '*' :: rest) = none := by
  rcases u with _ | ⟨u0, ut⟩
  · apply tryCard0_none_of_head
    intro c hc
    rw [List.nil_append, getC_cons_zero] at hc
    obtain rfl := Option.some.inj hc
    decide
  · set u := u0 :: ut with hu
    set d := u.length with hd
    set l' := u ++ '*' :: rest with hl'
    cases hE : tryCard0 pc l' with
    | none => rfl
    | some e' =>
      exfalso
      have hdpos : 1 ≤ d := by rw [hd, hu]; simp
      have hstar : getC l' d = some '*' := getC_star_point u rest
      have hget : ∀ x, x < d → getC l' x = getC l x := fun x hx => getC_ustar rest hpre hx
      obtain ⟨⟨c0, hg0, hd0⟩, hpw, hgo⟩ := tryCard0_some_facts hE
      have h1e : 1 ≤ e' := cardGo_pos_le hgo
      rcases Nat.lt_trichotomy e' d with hlt | heq | hgt
      · -- the star lies past the match: the whole run transfers to `l`
        have hagree : ∀ x, x ≤ e' → getC l' x = getC l x := fun x hx => hget x (by omega)
        have hne : cardGo l (l.length + 1) 1 1 ≠ none := cardGo_transfer hagree hgo (by omega)
        apply hne
        have hg0l : getC l 0 = some c0 := by rw [← hget 0 (by omega)]; exact hg0
        simp only [tryCard0] at hnone
        rw [hg0l] at hnone
        simpa [isWordChar_of_digit hd0, hpw, hd0] using hnone
      · -- the match ends exactly at the star: its last character is a digit,
        -- but `l` has a non-word character there
        subst heq
        obtain ⟨h1, ⟨cd, hcd, hcddig⟩, hcw⟩ := tryCard0_end hE
        have hcdl : getC l (d - 1) = some cd := by
          rw [← hget (d - 1) (by omega)]
          exact hcd
        rcases hd_prev with h0 | hpv
        · rw [hu] at h0
          exact List.noConfusion h0
        · rw [hcdl] at hpv
          rw [show ((some cd).map isWordChar).getD false = isWordChar cd from rfl,
            isWordChar_of_digit hcddig] at hpv
          exact Bool.noConfusion hpv
      · -- the star lies strictly inside the span: but it is neither a digit
        -- nor a separator
        obtain ⟨cstar, hcs, hds⟩ := tryCard0_span hE d hgt
        rw [hstar] at hcs
        obtain rfl := Option.some.inj hcs
        exact absurd hds (by decide)

lemma cardTry_repstar (cs : List Char) : ∀ j rep len, cardTry cs j = some (rep, len) →
    rep.head? = some '*' := by
  intro j rep len h
  simp only [cardTry, Option.map_eq_some'] at h
  obtain ⟨L, _, hL⟩ := h
  injection hL with h1 h2
  subst h1
  rfl

lemma tryCard0_none_at_rep (pc : Option Char) (repD : List Char) (o : Nat)
    (tail : List Char)
    (h : ∃ c, getC repD o = some c ∧ c.isDigit = false) (ho : o < repD.length) :
    tryCard0 pc (repD.drop o ++ tail) = none := by
  obtain ⟨c, hc, hdig⟩ := h
  apply tryCard0_none_of_head
  intro c' hc'
  have hlen : 0 < (repD.drop o).length := by
    rw [List.length_drop]
    omega
  rw [getC_append_left _ _ _ hlen, getC_drop, Nat.add_zero, hc] at hc'
  obtain rfl := Option.some.inj hc'
  exact hdig

lemma cardRep_len : ("****-CARD-****".data).length = 14 := by decide

lemma getC_eq_some (cs : List Char) (i : Nat) (h : i < cs.length) :
    getC cs i = some cs[i] := by
  simp [getC, List.getElem?_eq_getElem h]

/-- After the card pass, the card pattern matches at no position of the
output: the scan from index `i`, entered with a previous character `pc`
that is either the true previous character of `cs` or the closing star of a
placeholder standing where `cs` has a non-word position. -/
theorem card_nomatch_scan (cs : List Char) : ∀ i pc j,
    (pc = prevC cs i ∨
      (pc = some '*' ∧ ((getC cs i).map isWordChar).getD false = false)) →
    tryCard0 (if j = 0 then pc else prevC (replaceGo cardTry cs i) j)
      ((replaceGo cardTry cs i).drop j) = none := by
  intro i pc j hinv
  by_cases hlt : i < cs.length
  · cases htry : cardTry cs i with
    | some rl =>
      obtain ⟨rep, len⟩ := rl
      have hout : replaceGo cardTry cs i = rep ++ replaceGo cardTry cs (i + max len 1) := by
        rw [replaceGo, dif_pos hlt]
        simp only [htry]
      rw [show cardTry cs i = (tryCardAt cs i).map
          (fun len => (("****-CARD-****".data : List Char), len)) from rfl,
        Option.map_eq_some'] at htry
      obtain ⟨L, hL1, hL2⟩ := htry
      injection hL2 with ha hb
      subst ha
      subst hb
      have hm : tryCard0 (prevC cs i) (cs.drop i) = some L := hL1
      have h1len : 1 ≤ L := (tryCard0_end hm).1
      have hmax : max L 1 = L := by omega
      have hnw : ((getC cs (i + L)).map isWordChar).getD false = false := by
        have h2 := (tryCard0_end hm).2.2
        rwa [getC_drop] at h2
      by_cases hj : j < 14
      · rw [hout]
        rw [List.drop_append_of_le_length (by rw [cardRep_len]; omega)]
        obtain ⟨c, hc, hplus, hcd⟩ := cardRep_chars j hj
        exact tryCard0_none_at_rep _ _ j _ ⟨c, hc, hcd⟩ (by rw [cardRep_len]; omega)
      · push_neg at hj
        have IH := card_nomatch_scan cs (i + max L 1) (some '*') (j - 14)
          (Or.inr ⟨rfl, by rw [hmax]; exact hnw⟩)
        rw [hout]
        have hdrop : ("****-CARD-****".data ++ replaceGo cardTry cs (i + max L 1)).drop j
            = (replaceGo cardTry cs (i + max L 1)).drop (j - 14) := by
          rw [List.drop_append_eq_append_drop,
            List.drop_eq_nil_of_le (by rw [cardRep_len]; omega), List.nil_append,
            cardRep_len]
        rw [hdrop]
        have harg : (if j = 0 then pc else
            prevC ("****-CARD-****".data ++ replaceGo cardTry cs (i + max L 1)) j) =
            (if j - 14 = 0 then (some '*' : Option Char) else
              prevC (replaceGo cardTry cs (i + max L 1)) (j - 14)) := by
          rw [if_neg (by omega)]
          by_cases hj14 : j = 14
          · subst hj14
            rw [if_pos (by omega)]
            rw [show prevC ("****-CARD-****".data ++ replaceGo cardTry cs (i + max L 1)) 14
              = getC ("****-CARD-****".data ++ replaceGo cardTry cs (i + max L 1)) 13 from rfl]
            rw [getC_append_left _ _ _ (by rw [cardRep_len]; omega)]
            decide
          · rw [if_neg (by omega)]
            obtain ⟨j2, rfl⟩ : ∃ j2, j = j2 + 15 := ⟨j - 15, by omega⟩
            rw [show prevC ("****-CARD-****".data ++
                replaceGo cardTry cs (i + max L 1)) (j2 + 15)
              = getC ("****-CARD-****".data ++
                replaceGo cardTry cs (i + max L 1)) (j2 + 14) from rfl]
            rw [show (j2 + 14 : Nat) = ("****-CARD-****".data).length + j2 from by
              rw [cardRep_len]; omega]
            rw [getC_append_right]
            rw [show j2 + 15 - 14 = j2 + 1 from by omega]
            rfl
        rw [harg]
        exact IH
    | none =>
      have hout : replaceGo cardTry cs i = cs.getD i ' ' :: replaceGo cardTry cs (i + 1) := by
        rw [replaceGo, dif_pos hlt]
        simp only [htry]
      have hgetd : cs.getD i ' ' = cs[i] := List.getD_eq_getElem cs ' ' hlt
      have hmono : tryCard0 (prevC cs i) (cs.drop i) = none := by
        simp only [cardTry, tryCardAt, Option.map_eq_none'] at htry
        exact htry
      cases j with
      | zero =>
        rw [hout, List.drop_zero, if_pos rfl, hgetd]
        rcases hinv with hpcA | ⟨hpcB, hnw⟩
        · subst hpcA
          rcases replaceGo_prefix_payload cardTry cs (cardTry_repstar cs) (i + 1) with
            hid | ⟨u, rest, rep₂, len₂, hupre, heq, hpay⟩
          · rw [hid, ← List.drop_eq_getElem_cons hlt]
            exact hmono
          · rw [heq, show cs[i] :: (u ++ '*' :: rest) = (cs[i] :: u) ++ '*' :: rest from rfl]
            apply tryCard0_blocker (prevC cs i) (cs.drop i) (cs[i] :: u) rest ?_ hmono ?_
            · obtain ⟨t, ht⟩ := hupre
              exact ⟨t, by rw [List.drop_eq_getElem_cons hlt, List.cons_append, ht]⟩
            · right
              simp only [cardTry, tryCardAt, Option.map_eq_some'] at hpay
              obtain ⟨L2, hL2a, _⟩ := hpay
              have hfact := (tryCard0_some_facts hL2a).2.1
              have hmprev : prevC cs (i + 1 + u.length) = getC cs (i + u.length) := by
                rw [show i + 1 + u.length = (i + u.length) + 1 from by omega]
                rfl
              rw [hmprev] at hfact
              rw [show (cs[i] :: u).length - 1 = u.length from by simp, getC_drop]
              exact hfact
        · subst hpcB
          apply tryCard0_none_of_head
          intro c hc
          rw [getC_cons_zero] at hc
          obtain rfl := Option.some.inj hc
          have hgi : getC cs i = some cs[i] := getC_eq_some cs i hlt
          rw [hgi] at hnw
          have hnw' : isWordChar cs[i] = false := hnw
          cases hdig : cs[i].isDigit
          · rfl
          · exact absurd (isWordChar_of_digit hdig) (by simp [hnw'])
      | succ j' =>
        have IH := card_nomatch_scan cs (i + 1) (prevC cs (i + 1)) j' (Or.inl rfl)
        rw [hout, List.drop_succ_cons, if_neg (by omega)]
        have harg : prevC (cs.getD i ' ' :: replaceGo cardTry cs (i + 1)) (j' + 1) =
            (if j' = 0 then prevC cs (i + 1)
              else prevC (replaceGo cardTry cs (i + 1)) j') := by
          cases j' with
          | zero =>
            rw [if_pos rfl,
              show prevC (cs.getD i ' ' :: replaceGo cardTry cs (i + 1)) 1 =
                getC (cs.getD i ' ' :: replaceGo cardTry cs (i + 1)) 0 from rfl,
              getC_cons_zero, hgetd,
              show prevC cs (i + 1) = getC cs i from rfl, getC_eq_some cs i hlt]
          | succ j'' =>
            rw [if_neg (by omega),
              show prevC (cs.getD i ' ' :: replaceGo cardTry cs (i + 1)) (j'' + 1 + 1) =
                getC (cs.getD i ' ' :: replaceGo cardTry cs (i + 1)) (j'' + 1) from rfl,
              getC_cons_succ]
            rfl
        rw [harg]
        exact IH
  · rw [replaceGo, dif_neg hlt, List.drop_nil]
    exact tryCard0_nil _
termination_by i => cs.length - i
decreasing_by all_goals omega

lemma card_nomatch_self (cs : List Char) (j : Nat) :
    tryCardAt (replaceScan cardTry cs) j = none := by
  cases j with
  | zero =>
    have h := card_nomatch_scan cs 0 (prevC cs 0) 0 (Or.inl rfl)
    rw [if_pos rfl] at h
    exact h
  | succ j' =>
    have h := card_nomatch_scan cs 0 (prevC cs 0) (j' + 1) (Or.inl rfl)
    rw [if_neg (by omega)] at h
    exact h

/-- On a fully masked string each of the three passes is the identity. -/
lemma masked_fixed (s : String) :
    maskEmail (maskCard (maskPhone (maskEmail s))) = maskCard (maskPhone (maskEmail s)) ∧
    maskPhone (maskCard (maskPhone (maskEmail s))) = maskCard (maskPhone (maskEmail s)) ∧
    maskCard (maskCard (maskPhone (maskEmail s))) = maskCard (maskPhone (maskEmail s)) := by
  have hE1 : ∀ q, tryEmail0 ((replaceScan emailTry s.data).drop q) = none :=
    email_nomatch_self s.data
  have hE2 : ∀ q, tryEmail0 ((replaceScan phoneTry
      (replaceScan emailTry s.data)).drop q) = none :=
    email_nomatch_after_phone _ hE1
  have hE3 : ∀ q, tryEmail0 ((replaceScan cardTry (replaceScan phoneTry
      (replaceScan emailTry s.data))).drop q) = none :=
    email_nomatch_after_card _ hE2
  have hP1 : ∀ q, tryPhone0 ((replaceScan phoneTry
      (replaceScan emailTry s.data)).drop q) = none :=
    phone_nomatch_self _
  have hP2 : ∀ q, tryPhone0 ((replaceScan cardTry (replaceScan phoneTry
      (replaceScan emailTry s.data))).drop q) = none :=
    phone_nomatch_after_card _ hP1
  have hC : ∀ j, tryCardAt (replaceScan cardTry (replaceScan phoneTry
      (replaceScan emailTry s.data))) j = none :=
    card_nomatch_self _
  refine ⟨?_, ?_, ?_⟩
  · exact congrArg String.mk (replaceScan_id emailTry _ fun j => by
      simp only [emailTry, tryEmailAt, Option.map_eq_none']
      exact hE3 j)
  · exact congrArg String.mk (replaceScan_id phoneTry _ fun j => by
      simp only [phoneTry, tryPhoneAt, Option.map_eq_none']
      exact hP2 j)
  · exact congrArg String.mk (replaceScan_id cardTry _ fun j => by
      simp only [cardTry, Option.map_eq_none']
      exact hC j)

/-- Masking an already-masked value is a no-op. -/
lemma maskValue_idem (v : JsValue) : maskValue (maskValue v) = maskValue v := by
  cases v with
  | nonString t => rfl
  | str s =>
    obtain ⟨hE, hP, hC⟩ := masked_fixed s
    show JsValue.str (maskCard (maskPhone (maskEmail (maskCard (maskPhone (maskEmail s))))))
      = JsValue.str (maskCard (maskPhone (maskEmail s)))
    rw [hE, hP, hC]

/-- **C8.** The PII redactor is a pure, deterministic function of the row
and is idempotent: for every row, `maskRow (maskRow row) = maskRow row`,
because after one pass no suffix of any masked string field matches the
email, phone or card pattern (the placeholders `***@***`, `***-PHONE-***`
and `****-CARD-****` reject all three matchers at every offset, and a `*`
inserted after an untouched prefix cannot create a new match). -/
theorem maskRow_idempotent (row : Row) : maskRow (maskRow row) = maskRow row := by
  induction row with
  | nil => rfl
  | cons kv t ih =>
    simp only [maskRow, List.map_cons] at ih ⊢
    rw [maskValue_idem, ih]

/-- **C1.** On both execution paths the data store is gated by both
guardrails: every call outcome either is a success whose executed text passed
the forbidden-statement classifier (`false`) and the access-policy check
(a returned `ok: true`) immediately before — the check made with the role
the handler actually uses: the request's role on the chat route's direct
path, and the request's role falling back to the stored entry's role
(`userRole ?? entry.userRole`) on the two preview-resolution paths — with
`run` invoked exactly with that text (and then the audit insert); or no
`run` call happened at all and the request did not execute (a structured
error object, the dry-run preview, or a raised error / 500). -/
theorem guards_gate_data_store :
    ∀ (fmt explain : String → String) (run : String → RunResult) (now : Nat)
      (newId : String) (store gstore : Store) (a : ChatRoute.DbToolArgs)
      (b : PreviewRoute.PostBody),
      ((∃ toRun roleUsed,
          ((jsTruthy a.previewId = none ∧ toRun = fmt a.query ∧
              roleUsed = a.userRole) ∨
            (∃ pid entry, jsTruthy a.previewId = some pid ∧
              storeGet store pid = some entry ∧ toRun = entry.query ∧
              roleUsed = a.userRole.or entry.userRole)) ∧
          FORBIDDEN_RE_test toRun = false ∧
            (ChatRoute.checkRBACOnSql toRun roleUsed).ok = true ∧
            (ChatRoute.dbToolExecute fmt explain run now newId store a).runCalls =
              [toRun, auditInsertSql a.previewId a.userId toRun] ∧
            (ChatRoute.dbToolExecute fmt explain run now newId store a).result =
              .rows (maskRunResult (run toRun)) toRun) ∨
        ((ChatRoute.dbToolExecute fmt explain run now newId store a).runCalls = [] ∧
          (ChatRoute.dbToolExecute fmt explain run now newId store a).result.isRows =
            false)) ∧
      ((∃ pid entry,
          jsTruthy b.previewId = some pid ∧
            storeGet gstore pid = some entry ∧
            FORBIDDEN_RE_test entry.query = false ∧
            (PreviewRoute.checkRBACOnSql entry.query
                (b.userRole.or entry.userRole)).ok = true ∧
            (PreviewRoute.POST run gstore b).runCalls =
              [entry.query,
                auditInsertSql (jsTruthy b.previewId) b.userId entry.query] ∧
            (PreviewRoute.POST run gstore b).response =
              .ok (maskRunResult (run entry.query)) entry.query) ∨
        ((PreviewRoute.POST run gstore b).runCalls = [] ∧
          (PreviewRoute.POST run gstore b).response.isOk = false)) := by
  intro fmt explain run now newId store gstore a b
  constructor
  · by_cases hf : FORBIDDEN_RE_test a.query
    · right
      simp [ChatRoute.dbToolExecute, hf, ChatRoute.DbToolResult.isRows]
    · rcases hrb : ChatRoute.checkRBACOnSql (fmt a.query) a.userRole with r1 | _
      · by_cases hro : r1.ok
        · by_cases hd : a.dryRun
          · right
            simp [ChatRoute.dbToolExecute, hf, hrb, hro, hd,
              ChatRoute.DbToolResult.isRows]
          · rcases hpid : jsTruthy a.previewId with _ | pid
            · by_cases hf2 : FORBIDDEN_RE_test (fmt a.query)
              · right
                simp [ChatRoute.dbToolExecute, hf, hrb, hro, hd, hpid, hf2,
                  ChatRoute.DbToolResult.isRows]
              · left
                refine ⟨fmt a.query, a.userRole, Or.inl ⟨rfl, rfl, rfl⟩,
                  by simpa using hf2, by rw [hrb]; exact hro, ?_, ?_⟩ <;>
                  simp [ChatRoute.dbToolExecute, hf, hrb, hro, hd, hpid, hf2]
            · rcases hget : storeGet store pid with _ | entry
              · right
                simp [ChatRoute.dbToolExecute, hf, hrb, hro, hd, hpid, hget,
                  ChatRoute.DbToolResult.isRows]
              · rcases hrb2 : ChatRoute.checkRBACOnSql entry.query
                    (a.userRole.or entry.userRole) with r2 | _
                · by_cases hro2 : r2.ok
                  · by_cases hf3 : FORBIDDEN_RE_test entry.query
                    · right
                      simp [ChatRoute.dbToolExecute, hf, hrb, hro, hd, hpid, hget,
                        hrb2, hro2, hf3, ChatRoute.DbToolResult.isRows]
                    · left
                      refine ⟨entry.query, a.userRole.or entry.userRole,
                        Or.inr ⟨pid, entry, rfl, hget, rfl, rfl⟩,
                        by simpa using hf3, by rw [hrb2]; exact hro2, ?_, ?_⟩ <;>
                        simp [ChatRoute.dbToolExecute, hf, hrb, hro, hd, hpid, hget,
                          hrb2, hro2, hf3]
                  · right
                    simp [ChatRoute.dbToolExecute, hf, hrb, hro, hd, hpid, hget,
                      hrb2, hro2, ChatRoute.DbToolResult.isRows]
                · right
                  simp [ChatRoute.dbToolExecute, hf, hrb, hro, hd, hpid, hget, hrb2,
                    ChatRoute.DbToolResult.isRows]
        · right
          simp [ChatRoute.dbToolExecute, hf, hrb, hro, ChatRoute.DbToolResult.isRows]
      · right
        simp [ChatRoute.dbToolExecute, hf, hrb, ChatRoute.DbToolResult.isRows]
  · rcases hpid : jsTruthy b.previewId with _ | pid
    · right
      simp [PreviewRoute.POST, hpid, PreviewRoute.ApiResponse.isOk]
    · rcases hget : storeGet gstore pid with _ | entry
      · right
        simp [PreviewRoute.POST, hpid, hget, PreviewRoute.ApiResponse.isOk]
      · by_cases hf : FORBIDDEN_RE_test entry.query
        · right
          simp [PreviewRoute.POST, hpid, hget, hf, PreviewRoute.ApiResponse.isOk]
        · rcases hrb : PreviewRoute.checkRBACOnSql entry.query
              (b.userRole.or entry.userRole) with r | _
          · by_cases hro : r.ok
            · left
              refine ⟨pid, entry, rfl, hget, by simpa using hf,
                by rw [hrb]; exact hro, ?_, ?_⟩ <;>
                simp [PreviewRoute.POST, hpid, hget, hf, hrb, hro]
            · right
              simp [PreviewRoute.POST, hpid, hget, hf, hrb, hro,
                PreviewRoute.ApiResponse.isOk]
          · right
            simp [PreviewRoute.POST, hpid, hget, hf, hrb,
              PreviewRoute.ApiResponse.isOk]

end SqlAgent
